import Mathlib

/-!
Verification development for the "rulebook" policy-rule rendering
application.  The TypeScript source is shallowly embedded: JavaScript
strings are modelled as Lean `String`/`List Char` (code units are taken
to be characters, which is exact for the ASCII data handled here),
mutable classes become explicit state passing, thrown exceptions become
`Except`/`Option` results, and the two external collaborators (the YAML
syntactic parser and the `marked` markdown renderer) are oracles passed
in as parameters.  JavaScript regular expressions are modelled by
hand-rolled deterministic matchers that follow the engine's
leftmost-match and greedy/backtracking semantics for the concrete
patterns appearing in the source.
-/

namespace Rulebook

/-! ### Character/string utilities shared by the regex models -/

/-- Split a character list at the first occurrence of `c`
(occurrence excluded); `none` when `c` does not occur. -/
def breakAtFirst (c : Char) : List Char → Option (List Char × List Char)
  | [] => none
  | x :: xs =>
    if x = c then some ([], xs)
    else match breakAtFirst c xs with
      | none => none
      | some (l, r) => some (x :: l, r)

/-- Split a character list on every occurrence of `c`
(like `String.prototype.split` / `object-path` path splitting). -/
def splitOnChar (c : Char) : List Char → List (List Char)
  | [] => [[]]
  | x :: xs =>
    if x = c then [] :: splitOnChar c xs
    else match splitOnChar c xs with
      | [] => [[x]]
      | l :: ls => (x :: l) :: ls

/-- `yaml.substring(0, offset).split("\n")` viewed on characters. -/
def splitNL (cs : List Char) : List (List Char) := splitOnChar '\n' cs

/-- Character class `[A-Za-z]`. -/
def isAlpha (c : Char) : Bool :=
  ('A' ≤ c ∧ c ≤ 'Z') ∨ ('a' ≤ c ∧ c ≤ 'z')

/-- Character class `[0-9]`. -/
def isDigit (c : Char) : Bool := '0' ≤ c ∧ c ≤ '9'

/-- Character class `[A-Za-z0-9_-]` used by identifier segments. -/
def isIdentChar (c : Char) : Bool := isAlpha c ∨ isDigit c ∨ c = '_' ∨ c = '-'

/-- One dotted-path segment `[A-Za-z][A-Za-z0-9_-]*`. -/
def identOk (cs : List Char) : Bool :=
  match cs with
  | [] => false
  | c :: rest => isAlpha c ∧ rest.all isIdentChar

/-- `.` of a JavaScript regex without the `s` flag: any character except
a line terminator (only `\n` and `\r` are relevant to this source). -/
def isDotChar (c : Char) : Bool := c ≠ '\n' ∧ c ≠ '\r'

/-! ### Models of the reference-literal regular expressions (schema side)

These model the patterns of `rulebook-schema.ts` and the capturing
variants used by `rulebook-parser.ts`.  A fragment `(.+)` must be
non-empty and free of line terminators. -/

/-- A valid `(.+)`-shaped fragment. -/
def fragOk (cs : List Char) : Bool := ¬cs.isEmpty ∧ cs.all isDotChar

/-- Capturing model of
`/^ctx:([A-Za-z][A-Za-z0-9_-]*(?:\.[A-Za-z][A-Za-z0-9_-]*)*)(?:#(.+))?$/`:
returns the dotted path and the optional fragment.  Since identifier
characters exclude `#`, the path ends at the first `#`. -/
def refCtxMatch (cs : List Char) : Option (List Char × Option (List Char)) :=
  match cs with
  | 'c' :: 't' :: 'x' :: ':' :: rest =>
    let (path, frag) :=
      match breakAtFirst '#' rest with
      | none => (rest, none)
      | some (l, r) => (l, some r)
    if (splitOnChar '.' path).all identOk then
      match frag with
      | none => some (path, none)
      | some f => if fragOk f then some (path, some f) else none
    else none
  | _ => none

/-- Boolean form of the schema's `RefCtx` narrow check. -/
def refCtxTest (cs : List Char) : Bool := (refCtxMatch cs).isSome

/-- Capturing model of `/^aspect:([A-Za-z0-9_-]+)(?:#(.+))?$/`. -/
def refAspectMatch (cs : List Char) : Option (List Char × Option (List Char)) :=
  match cs with
  | 'a' :: 's' :: 'p' :: 'e' :: 'c' :: 't' :: ':' :: rest =>
    let (id, frag) :=
      match breakAtFirst '#' rest with
      | none => (rest, none)
      | some (l, r) => (l, some r)
    if ¬id.isEmpty ∧ id.all isIdentChar then
      match frag with
      | none => some (id, none)
      | some f => if fragOk f then some (id, some f) else none
    else none
  | _ => none

/-- Boolean form of the schema's `RefAspect` narrow check. -/
def refAspectTest (cs : List Char) : Bool := (refAspectMatch cs).isSome

/-- Schema `RefURL`: `/^https?:.+$/` (anchored; `.` excludes line
terminators, so the whole tail must be terminator-free). -/
def refUrlTest (cs : List Char) : Bool :=
  match cs with
  | 'h' :: 't' :: 't' :: 'p' :: rest =>
    match rest with
    | ':' :: tail => ¬tail.isEmpty ∧ tail.all isDotChar
    | 's' :: ':' :: tail => ¬tail.isEmpty ∧ tail.all isDotChar
    | _ => false
  | _ => false

/-- Schema `RefMD`: `/^md:.+$/`. -/
def refMdTest (cs : List Char) : Bool :=
  match cs with
  | 'm' :: 'd' :: ':' :: tail => ¬tail.isEmpty ∧ tail.all isDotChar
  | _ => false

/-- Schema `RefEmail`:
`/^.+?@[a-z0-9_][a-z0-9_-]+(?:\.[a-z0-9_][a-z0-9_-]+)*$/`.
The local part must be non-empty and terminator-free; the domain is a
dot-separated list of labels of the shape `[a-z0-9_][a-z0-9_-]+`. -/
def isEmailHead (c : Char) : Bool := ('a' ≤ c ∧ c ≤ 'z') ∨ isDigit c ∨ c = '_'

def isEmailTail (c : Char) : Bool := isEmailHead c ∨ c = '-'

def emailLabelOk (cs : List Char) : Bool :=
  match cs with
  | c :: c' :: rest => isEmailHead c ∧ isEmailTail c' ∧ rest.all isEmailTail
  | _ => false

def emailDomainOk (cs : List Char) : Bool :=
  (splitOnChar '.' cs).all emailLabelOk

/-- Existence of an admissible split at some `@`. -/
def refEmailTestAux (before : List Char) : List Char → Bool
  | [] => false
  | c :: rest =>
    (c = '@' ∧ ¬before.isEmpty ∧ before.all isDotChar ∧ emailDomainOk rest)
      ∨ refEmailTestAux (before ++ [c]) rest

def refEmailTest (cs : List Char) : Bool := refEmailTestAux [] cs

/-- Schema `Date`: `/^20\d{2}-(0[1-9]|1[0-2])-(0[1-9]|[12]\d|3[01])$/`. -/
def dateTest (cs : List Char) : Bool :=
  match cs with
  | ['2', '0', y1, y2, '-', m1, m2, '-', d1, d2] =>
    isDigit y1 ∧ isDigit y2 ∧
    ((m1 = '0' ∧ '1' ≤ m2 ∧ m2 ≤ '9') ∨ (m1 = '1' ∧ '0' ≤ m2 ∧ m2 ≤ '2')) ∧
    ((d1 = '0' ∧ '1' ≤ d2 ∧ d2 ≤ '9') ∨ ((d1 = '1' ∨ d1 = '2') ∧ isDigit d2) ∨
      (d1 = '3' ∧ (d2 = '0' ∨ d2 = '1')))
  | _ => false

/-! String-level wrappers (the schemas validate JavaScript strings). -/

def refCtxTestS (s : String) : Bool := refCtxTest s.data
def refAspectTestS (s : String) : Bool := refAspectTest s.data
def refUrlTestS (s : String) : Bool := refUrlTest s.data
def refMdTestS (s : String) : Bool := refMdTest s.data
def refEmailTestS (s : String) : Bool := refEmailTest s.data
def dateTestS (s : String) : Bool := dateTest s.data

/-! ### Data model (`rulebook-schema.ts`)

The validated document types inferred from the arktype schemas.
JavaScript objects with fixed keys become structures; optional keys
become `Option`; the two-level `Context` map (a plain object) becomes an
insertion-ordered association list.  The ten `Level-N` keys of
`Assessment` become ten optional fields addressed through their source
key strings by `Assessment.get`. -/

structure Editing where
  Created  : String
  Modified : String
  deriving DecidableEq, Repr

structure Validity where
  From  : String
  Until : String
  deriving DecidableEq, Repr

structure Logo where
  Light : String
  Dark  : String
  deriving DecidableEq, Repr

structure Author where
  Name  : String
  Email : String
  Web   : String
  deriving DecidableEq, Repr

/-- The two-level `Context` map: namespace → name → free text. -/
abbrev ContextMap := List (String × List (String × String))

structure IndexType where
  Editing     : Editing
  Validity    : Validity
  Id          : String
  Name        : String
  Logo        : Option Logo := none
  Version     : String
  Author      : Author
  Description : String
  Context     : ContextMap
  deriving DecidableEq, Repr

structure AssessStatement where
  MUST   : Option String := none
  SHOULD : Option String := none
  MAY    : Option String := none
  WONT   : Option String := none
  deriving DecidableEq, Repr

structure AssessmentLevel where
  Id       : String
  What     : String
  Why      : Option String := none
  Assess   : Option (List AssessStatement) := none
  SotA     : Option String := none
  Optimize : Option String := none
  deriving DecidableEq, Repr

structure Assessment where
  level9 : Option AssessmentLevel := none
  level8 : Option AssessmentLevel := none
  level7 : Option AssessmentLevel := none
  level6 : Option AssessmentLevel := none
  level5 : Option AssessmentLevel := none
  level4 : Option AssessmentLevel := none
  level3 : Option AssessmentLevel := none
  level2 : Option AssessmentLevel := none
  level1 : Option AssessmentLevel := none
  level0 : Option AssessmentLevel := none
  deriving DecidableEq, Repr

/-- Access an assessment level through its source key string. -/
def Assessment.get (a : Assessment) : String → Option AssessmentLevel
  | "Level-9" => a.level9
  | "Level-8" => a.level8
  | "Level-7" => a.level7
  | "Level-6" => a.level6
  | "Level-5" => a.level5
  | "Level-4" => a.level4
  | "Level-3" => a.level3
  | "Level-2" => a.level2
  | "Level-1" => a.level1
  | "Level-0" => a.level0
  | _ => none

/-- The ten fixed level keys in descending lexical order, i.e. the
result of `typedKeys(…Assessment).toSorted((a, b) => b.localeCompare(a))`
restricted to present keys (sorting makes the object's insertion order
irrelevant). -/
def levelKeysDesc : List String :=
  ["Level-9", "Level-8", "Level-7", "Level-6", "Level-5",
   "Level-4", "Level-3", "Level-2", "Level-1", "Level-0"]

/-- `assessmentLevels` of the generator: the populated level keys in
descending order. -/
def Assessment.presentKeysDesc (a : Assessment) : List String :=
  levelKeysDesc.filter (fun k => (a.get k).isSome)

/-- `assessments` of the generator: the populated levels in descending
key order. -/
def Assessment.presentLevelsDesc (a : Assessment) : List AssessmentLevel :=
  a.presentKeysDesc.filterMap a.get

structure Relation where
  Scope       : Option String := none
  Support     : Option String := none
  Demand      : Option String := none
  Context     : Option String := none
  Responsible : Option String := none
  /-- source key `See-Also` -/
  SeeAlso     : Option String := none
  deriving DecidableEq, Repr

structure AspectType where
  Editing    : Option Editing := none
  Validity   : Option Validity := none
  Id         : String
  Name       : String
  Icons      : Option (List String) := none
  Objective  : String
  Assessment : Assessment
  Relations  : Option (List Relation) := none
  deriving DecidableEq, Repr

/-! ### Concrete syntax tree and repository (`rulebook-repository` / part_001)

The YAML library's lossless document tree is modelled as a tree of nodes
each carrying an optional byte range `[start, value-end, node-end]` and
string-keyed children (sequence indices appear as their decimal
strings, matching the string paths handed to `cst.getIn`). -/

inductive CST where
  | node (range : Option (Nat × Nat × Nat)) (children : List (String × CST))

def CST.range : CST → Option (Nat × Nat × Nat)
  | .node r _ => r

def lookupChild (k : String) : List (String × CST) → Option CST
  | [] => none
  | (k', c) :: rest => if k' = k then some c else lookupChild k rest

/-- `cst.getIn(path, true)`: walk the tree along the string path. -/
def CST.getIn : CST → List String → Option CST
  | c, [] => some c
  | .node _ ch, k :: rest =>
    match lookupChild k ch with
    | none => none
    | some c' => CST.getIn c' rest

/-- `RulebookArtifact`: a validated document together with its
originating filename, source text and concrete syntax tree. -/
structure RulebookArtifact (α : Type) where
  obj  : α
  file : String := ""
  yaml : List Char := []
  cst  : Option CST := none

/-- The `Rulebook` class state (named `RulebookRepository` as in the cli variant): the optional index artifact and the
ordered aspect list. -/
structure RulebookRepository where
  index   : Option (RulebookArtifact IndexType) := none
  aspects : List (RulebookArtifact AspectType) := []

def RulebookRepository.getIndex (r : RulebookRepository) : Option (RulebookArtifact IndexType) := r.index

def RulebookRepository.getAspects (r : RulebookRepository) : List (RulebookArtifact AspectType) := r.aspects

def RulebookRepository.addAspect (r : RulebookRepository) (a : RulebookArtifact AspectType) : RulebookRepository :=
  { r with aspects := r.aspects ++ [a] }

def RulebookRepository.clearAspects (r : RulebookRepository) : RulebookRepository := { r with aspects := [] }

/-- `findAspectById`: first match by id, linear scan. -/
def RulebookRepository.findAspectById (r : RulebookRepository) (id : String) :
    Option (RulebookArtifact AspectType) :=
  r.aspects.find? (fun a => a.obj.Id = id)

/-! ### JSON values (`rulebook-serializer.ts`)

`JSON.stringify`/`JSON.parse` — the external JSON codec — form an
identity on this value domain, so `export`/`import` are modelled
directly on JSON values.  Keys of `Json.obj` are distinct, as in every
value produced by `JSON.parse`. -/

inductive Json where
  | null
  | bool (b : Bool)
  | num (n : Int)
  | str (s : String)
  | arr (elems : List Json)
  | obj (fields : List (String × Json))

/-- Property lookup on an object's field list. -/
def jsGet (fields : List (String × Json)) (k : String) : Option Json :=
  match fields with
  | [] => none
  | (k', v) :: rest => if k' = k then some v else jsGet rest k

def asString : Json → Option String
  | .str s => some s
  | _ => none

/-! ### Model of the arktype schema validation used by the serializer.

Each schema becomes `Json → Option <validated value>`; `none` models the
`type.errors` outcome.  Schemas declared with `"+": "reject"` reject
unknown keys; the nested `Editing`/`Validity`/`Logo`/`Author`/`Context`
types are declared without it and so ignore undeclared keys. -/

/-- Validate each element of an array, failing on the first invalid one
(the shape arktype's `.array()` application takes here). -/
def mapMOpt {α β : Type} (f : α → Option β) : List α → Option (List β)
  | [] => some []
  | x :: xs => (f x).bind (fun y => (mapMOpt f xs).map (fun ys => y :: ys))

def decodeEditing : Json → Option Editing
  | .obj fs => do
    let c ← jsGet fs "Created" >>= asString
    let _ ← if dateTestS c then some () else (none : Option Unit)
    let m ← jsGet fs "Modified" >>= asString
    let _ ← if dateTestS m then some () else (none : Option Unit)
    pure { Created := c, Modified := m }
  | _ => none

def decodeValidity : Json → Option Validity
  | .obj fs => do
    let f ← jsGet fs "From" >>= asString
    let _ ← if dateTestS f then some () else (none : Option Unit)
    let u ← jsGet fs "Until" >>= asString
    let _ ← if dateTestS u ∨ u = "..." then some () else (none : Option Unit)
    pure { From := f, Until := u }
  | _ => none

def decodeLogo : Json → Option Logo
  | .obj fs => do
    let l ← jsGet fs "Light" >>= asString
    let d ← jsGet fs "Dark" >>= asString
    pure { Light := l, Dark := d }
  | _ => none

def decodeAuthor : Json → Option Author
  | .obj fs => do
    let n ← jsGet fs "Name" >>= asString
    let e ← jsGet fs "Email" >>= asString
    let _ ← if refEmailTestS e then some () else (none : Option Unit)
    let w ← jsGet fs "Web" >>= asString
    let _ ← if refUrlTestS w then some () else (none : Option Unit)
    pure { Name := n, Email := e, Web := w }
  | _ => none

def decodeContextInner : Json → Option (List (String × String))
  | .obj fs => mapMOpt (fun kv => (asString kv.2).map (fun s => (kv.1, s))) fs
  | _ => none

def decodeContext : Json → Option ContextMap
  | .obj fs => mapMOpt (fun kv => (decodeContextInner kv.2).map (fun m => (kv.1, m))) fs
  | _ => none

/-- Decode an optional string-valued key whose value must satisfy the
given narrow check. -/
def optRefField (fs : List (String × Json)) (k : String) (test : String → Bool) :
    Option (Option String) :=
  match jsGet fs k with
  | none => some none
  | some v => do
    let s ← asString v
    let _ ← if test s then some () else (none : Option Unit)
    pure (some s)

def optStrField (fs : List (String × Json)) (k : String) : Option (Option String) :=
  match jsGet fs k with
  | none => some none
  | some v => (asString v).map some

def indexKeys : List String :=
  ["Editing", "Validity", "Id", "Name", "Logo", "Version", "Author",
   "Description", "Context"]

/-- Validation model of `IndexSchema` (closed schema). -/
def IndexSchema : Json → Option IndexType
  | .obj fs => do
    let _ ← if fs.all (fun kv => indexKeys.contains kv.1) then some () else (none : Option Unit)
    let ed ← jsGet fs "Editing" >>= decodeEditing
    let va ← jsGet fs "Validity" >>= decodeValidity
    let id ← jsGet fs "Id" >>= asString
    let nm ← jsGet fs "Name" >>= asString
    let lg ← match jsGet fs "Logo" with
      | none => some none
      | some v => (decodeLogo v).map some
    let ver ← jsGet fs "Version" >>= asString
    let au ← jsGet fs "Author" >>= decodeAuthor
    let de ← jsGet fs "Description" >>= asString
    let cx ← jsGet fs "Context" >>= decodeContext
    pure { Editing := ed, Validity := va, Id := id, Name := nm, Logo := lg,
           Version := ver, Author := au, Description := de, Context := cx }
  | _ => none

def assessStatementKeys : List String := ["MUST", "SHOULD", "MAY", "WONT"]

def decodeAssessStatement : Json → Option AssessStatement
  | .obj fs => do
    let _ ← if fs.all (fun kv => assessStatementKeys.contains kv.1) then some () else (none : Option Unit)
    let mu ← optRefField fs "MUST" refCtxTestS
    let sh ← optRefField fs "SHOULD" refCtxTestS
    let ma ← optRefField fs "MAY" refCtxTestS
    let wo ← optRefField fs "WONT" refCtxTestS
    pure { MUST := mu, SHOULD := sh, MAY := ma, WONT := wo }
  | _ => none

def assessmentLevelKeys : List String :=
  ["Id", "What", "Why", "Assess", "SotA", "Optimize"]

def decodeAssessmentLevel : Json → Option AssessmentLevel
  | .obj fs => do
    let _ ← if fs.all (fun kv => assessmentLevelKeys.contains kv.1) then some () else (none : Option Unit)
    let id ← jsGet fs "Id" >>= asString
    let wh ← jsGet fs "What" >>= asString
    let why ← optStrField fs "Why"
    let ass ← match jsGet fs "Assess" with
      | none => some none
      | some (.arr l) => (mapMOpt decodeAssessStatement l).map some
      | some _ => none
    let so ← optStrField fs "SotA"
    let op ← optStrField fs "Optimize"
    pure { Id := id, What := wh, Why := why, Assess := ass, SotA := so,
           Optimize := op }
  | _ => none

def decodeOptLevel (fs : List (String × Json)) (k : String) :
    Option (Option AssessmentLevel) :=
  match jsGet fs k with
  | none => some none
  | some v => (decodeAssessmentLevel v).map some

def decodeAssessment : Json → Option Assessment
  | .obj fs => do
    let _ ← if fs.all (fun kv => levelKeysDesc.contains kv.1) then some () else (none : Option Unit)
    let l9 ← decodeOptLevel fs "Level-9"
    let l8 ← decodeOptLevel fs "Level-8"
    let l7 ← decodeOptLevel fs "Level-7"
    let l6 ← decodeOptLevel fs "Level-6"
    let l5 ← decodeOptLevel fs "Level-5"
    let l4 ← decodeOptLevel fs "Level-4"
    let l3 ← decodeOptLevel fs "Level-3"
    let l2 ← decodeOptLevel fs "Level-2"
    let l1 ← decodeOptLevel fs "Level-1"
    let l0 ← decodeOptLevel fs "Level-0"
    pure { level9 := l9, level8 := l8, level7 := l7, level6 := l6,
           level5 := l5, level4 := l4, level3 := l3, level2 := l2,
           level1 := l1, level0 := l0 }
  | _ => none

def relationKeys : List String :=
  ["Scope", "Support", "Demand", "Context", "Responsible", "See-Also"]

def seeAlsoTest (s : String) : Bool :=
  refCtxTestS s ∨ refAspectTestS s ∨ refUrlTestS s ∨ refMdTestS s

def decodeRelation : Json → Option Relation
  | .obj fs => do
    let _ ← if fs.all (fun kv => relationKeys.contains kv.1) then some () else (none : Option Unit)
    let sc ← optRefField fs "Scope" refAspectTestS
    let su ← optRefField fs "Support" refCtxTestS
    let de ← optRefField fs "Demand" refCtxTestS
    let cx ← optRefField fs "Context" refCtxTestS
    let re ← optRefField fs "Responsible" refCtxTestS
    let sa ← optRefField fs "See-Also" seeAlsoTest
    pure { Scope := sc, Support := su, Demand := de, Context := cx,
           Responsible := re, SeeAlso := sa }
  | _ => none

def aspectKeys : List String :=
  ["Editing", "Validity", "Id", "Name", "Icons", "Objective", "Assessment",
   "Relations"]

/-- Validation model of `AspectSchema` (closed schema). -/
def AspectSchema : Json → Option AspectType
  | .obj fs => do
    let _ ← if fs.all (fun kv => aspectKeys.contains kv.1) then some () else (none : Option Unit)
    let ed ← match jsGet fs "Editing" with
      | none => some none
      | some v => (decodeEditing v).map some
    let va ← match jsGet fs "Validity" with
      | none => some none
      | some v => (decodeValidity v).map some
    let id ← jsGet fs "Id" >>= asString
    let nm ← jsGet fs "Name" >>= asString
    let ic ← match jsGet fs "Icons" with
      | none => some none
      | some (.arr l) => (mapMOpt asString l).map some
      | some _ => none
    let ob ← jsGet fs "Objective" >>= asString
    let ass ← jsGet fs "Assessment" >>= decodeAssessment
    let rel ← match jsGet fs "Relations" with
      | none => some none
      | some (.arr l) => (mapMOpt decodeRelation l).map some
      | some _ => none
    pure { Editing := ed, Validity := va, Id := id, Name := nm, Icons := ic,
           Objective := ob, Assessment := ass, Relations := rel }
  | _ => none

/-! ### JSON encoders: the shape `JSON.stringify` serializes.

Optional keys absent in the validated object are dropped by
`JSON.stringify` (their values are `undefined`), hence the list
concatenation of present fields. -/

def optJ (k : String) : Option String → List (String × Json)
  | none => []
  | some s => [(k, .str s)]

def encodeEditing (e : Editing) : Json :=
  .obj [("Created", .str e.Created), ("Modified", .str e.Modified)]

def encodeValidity (v : Validity) : Json :=
  .obj [("From", .str v.From), ("Until", .str v.Until)]

def encodeLogo (l : Logo) : Json :=
  .obj [("Light", .str l.Light), ("Dark", .str l.Dark)]

def encodeAuthor (a : Author) : Json :=
  .obj [("Name", .str a.Name), ("Email", .str a.Email), ("Web", .str a.Web)]

def encodeContext (c : ContextMap) : Json :=
  .obj (c.map (fun kv =>
    (kv.1, Json.obj (kv.2.map (fun kv2 => (kv2.1, Json.str kv2.2))))))

def encodeIndex (x : IndexType) : Json :=
  .obj ([("Editing", encodeEditing x.Editing),
         ("Validity", encodeValidity x.Validity),
         ("Id", .str x.Id), ("Name", .str x.Name)] ++
        (match x.Logo with
         | none => []
         | some l => [("Logo", encodeLogo l)]) ++
        [("Version", .str x.Version),
         ("Author", encodeAuthor x.Author),
         ("Description", .str x.Description),
         ("Context", encodeContext x.Context)])

def encodeAssessStatement (st : AssessStatement) : Json :=
  .obj (optJ "MUST" st.MUST ++ optJ "SHOULD" st.SHOULD ++
        optJ "MAY" st.MAY ++ optJ "WONT" st.WONT)

def encodeAssessmentLevel (l : AssessmentLevel) : Json :=
  .obj ([("Id", .str l.Id), ("What", .str l.What)] ++ optJ "Why" l.Why ++
        (match l.Assess with
         | none => []
         | some sts => [("Assess", Json.arr (sts.map encodeAssessStatement))]) ++
        optJ "SotA" l.SotA ++ optJ "Optimize" l.Optimize)

def optLevelJ (k : String) : Option AssessmentLevel → List (String × Json)
  | none => []
  | some l => [(k, encodeAssessmentLevel l)]

def assessmentFields (a : Assessment) : List (String × Json) :=
  optLevelJ "Level-9" a.level9 ++ optLevelJ "Level-8" a.level8 ++
  optLevelJ "Level-7" a.level7 ++ optLevelJ "Level-6" a.level6 ++
  optLevelJ "Level-5" a.level5 ++ optLevelJ "Level-4" a.level4 ++
  optLevelJ "Level-3" a.level3 ++ optLevelJ "Level-2" a.level2 ++
  optLevelJ "Level-1" a.level1 ++ optLevelJ "Level-0" a.level0

def encodeAssessment (a : Assessment) : Json :=
  .obj (assessmentFields a)

def encodeRelation (r : Relation) : Json :=
  .obj (optJ "Scope" r.Scope ++ optJ "Support" r.Support ++
        optJ "Demand" r.Demand ++ optJ "Context" r.Context ++
        optJ "Responsible" r.Responsible ++ optJ "See-Also" r.SeeAlso)

def encodeAspect (x : AspectType) : Json :=
  .obj ((match x.Editing with
         | none => []
         | some e => [("Editing", encodeEditing e)]) ++
        (match x.Validity with
         | none => []
         | some v => [("Validity", encodeValidity v)]) ++
        [("Id", .str x.Id), ("Name", .str x.Name)] ++
        (match x.Icons with
         | none => []
         | some l => [("Icons", Json.arr (l.map Json.str))]) ++
        [("Objective", .str x.Objective),
         ("Assessment", encodeAssessment x.Assessment)] ++
        (match x.Relations with
         | none => []
         | some rs => [("Relations", Json.arr (rs.map encodeRelation))]))

/-! ### Serializer (`rulebook-serializer.ts`) -/

/-- `RulebookSerializer.export`: the JSON envelope
`{ index: <obj|null>, aspects: [...] }`. -/
def serializerExport (repo : RulebookRepository) : Json :=
  .obj [("index", match repo.index with
                  | none => .null
                  | some a => encodeIndex a.obj),
        ("aspects", .arr (repo.aspects.map (fun a => encodeAspect a.obj)))]

/-- The aspect loop of `RulebookSerializer.import`: validate and append
each aspect, stopping (with the repository mutated so far) at the first
schema-invalid element. -/
def importAspectsLoop (repo : RulebookRepository) : List Json → RulebookRepository × Option String
  | [] => (repo, none)
  | j :: rest =>
    match AspectSchema j with
    | none => (repo, some "failed to import aspect")
    | some a => importAspectsLoop (repo.addAspect { obj := a }) rest

def importChecked (repo : RulebookRepository) (fs : List (String × Json)) (ix : Json) :
    RulebookRepository × Option String :=
  match jsGet fs "aspects" with
  | some (.arr l) =>
    match IndexSchema ix with
    | none => (repo, some "failed to import index")
    | some ixt =>
      importAspectsLoop
        (RulebookRepository.clearAspects { repo with index := some { obj := ixt } }) l
  | _ => (repo, some "import structure does not contain top-level 'aspects' field")

/-- `RulebookSerializer.import` after `JSON.parse`: the top-level shape
checks (`typeof obj.index === "object" && obj.index !== null`, then
`Array.isArray(obj.aspects)`), then index validation and `setIndex`,
then `clearAspects` and the aspect loop.  The returned pair is the
repository state after the call together with the thrown error, if
any. -/
def serializerImport (repo : RulebookRepository) (obj : Json) : RulebookRepository × Option String :=
  match obj with
  | .obj fs =>
    match jsGet fs "index" with
    | some (.obj ifs) => importChecked repo fs (.obj ifs)
    | some (.arr l') => importChecked repo fs (.arr l')
    | _ => (repo, some "import structure does not contain top-level 'index' field")
  | .arr _ => (repo, some "import structure does not contain top-level 'index' field")
  | _ => (repo, some "import structure not an object")

/-! ### Position resolver (`rulebook-parser.ts`, `getLineColByOffset` /
`getLineColByPath`)

Source text is a character list; offsets are character offsets. -/

/-- `getLineColByOffset`: 1-based line/column of an offset, computed by
splitting the preceding text at newlines. -/
def getLineColByOffset (yaml : List Char) (offset : Nat) : Nat × Nat :=
  let lines := splitNL (yaml.take offset)
  (lines.length, (lines.getLastD []).length + 1)

/-- `getLineColByPath`: try the path's prefixes from full depth down to
the root; the first prefix node carrying a `range` wins. -/
def getLineColByPath (yaml : List Char) (cst : Option CST) (path : List String) :
    Option (Nat × Nat) :=
  if yaml = [] then none
  else
    match cst with
    | none => none
    | some root =>
      (List.range (path.length + 1)).reverse.findSome? (fun i =>
        match root.getIn (path.take i) with
        | some n =>
          match n.range with
          | some (start, _, _) => some (getLineColByOffset yaml start)
          | none => none
        | none => none)

/-! ### Parse errors (`RulebookParseError`) and the syntactic failure
branch of `parseYamlWithSchema` -/

structure RulebookParseError where
  message : String
  source  : List Char := []
  file    : String := ""
  line    : Nat := 1
  column  : Nat := 1
  deriving DecidableEq, Repr

/-- The error the external YAML parser reports for ill-formed input
(`YAMLParseError`): a message and an optional first line/column. -/
structure YAMLParseError where
  message : String
  linePos : Option (Nat × Nat) := none
  deriving DecidableEq, Repr

/-- Tail admissible for `(?:.|\r?\n)*$`: every carriage return must be
immediately followed by a newline (a lone `\r` defeats the match). -/
def regexTailOk : List Char → Bool
  | [] => true
  | '\r' :: rest =>
    match rest with
    | '\n' :: rest' => regexTailOk rest'
    | _ => false
  | _ :: rest => regexTailOk rest

/-- `message.replace(/:(?:.|\r?\n)*$/, "")`: delete everything from the
first colon whose tail the pattern can consume, to the end. -/
def truncAtColon : List Char → List Char
  | [] => []
  | c :: rest =>
    if c = ':' ∧ regexTailOk rest then []
    else c :: truncAtColon rest

def truncAtColonS (s : String) : String := String.mk (truncAtColon s.data)

/-- The `YAMLParseError` arm of the catch block in `parseYamlWithSchema`:
build the `RulebookParseError` for a syntactic failure. -/
def syntacticParseFailure (specType file : String) (yamlText : List Char)
    (e : YAMLParseError) : RulebookParseError :=
  { message := "failed to syntactically parse " ++ specType ++
      " YAML specification: " ++ truncAtColonS e.message
    source := yamlText
    file := file
    line := (e.linePos.map Prod.fst).getD 1
    column := (e.linePos.map Prod.snd).getD 1 }

/-- The syntactic stage of `parseYamlWithSchema`, with the external YAML
parser passed as an oracle. -/
def parseYamlSyntactic (yamlParse : List Char → Except YAMLParseError Json)
    (specType file : String) (yamlText : List Char) :
    Except RulebookParseError Json :=
  match yamlParse yamlText with
  | .error e => .error (syntacticParseFailure specType file yamlText e)
  | .ok v => .ok v

/-! ### Cross-reference validator (`rulebook-parser.ts`,
`checkRefAspect` / `checkRefCtx` / `validateCrossRefs`) -/

/-- Failures of `validateCrossRefs`: a thrown `RulebookParseError`, or
the plain `Error` thrown when the index is missing. -/
inductive CrossRefFailure where
  | internalError (msg : String)
  | parseError (e : RulebookParseError)
  deriving DecidableEq, Repr

def lookupAssoc {β : Type} (k : String) : List (String × β) → Option β
  | [] => none
  | (k', v) :: rest => if k' = k then some v else lookupAssoc k rest

/-- `object-path`'s `getKey`: a key counts as an array index only in
canonical decimal form. -/
def canonNat (s : String) : Option Nat :=
  match s.toNat? with
  | some n => if toString n = s then some n else none
  | none => none

/-- `objectPath.get` continued into a JavaScript string primitive: own
properties are `length` and the canonical indices below the length. -/
def jsStringPathGet (s : List Char) : List String → Bool
  | [] => true
  | k :: rest =>
    if k = "length" then rest.isEmpty
    else
      match canonNat k with
      | some i =>
        match s.get? i with
        | some c => jsStringPathGet [c] rest
        | none => false
      | none => false

/-- `objectPath.get(index.obj.Context, ref) !== undefined` for the
dot-split path `segs`. -/
def objectPathGetDefined (ctx : ContextMap) (segs : List String) : Bool :=
  match segs with
  | [] => true
  | ns :: rest =>
    match lookupAssoc ns ctx with
    | none => false
    | some inner =>
      match rest with
      | [] => true
      | nm :: rest2 =>
        match lookupAssoc nm inner with
        | none => false
        | some v => jsStringPathGet v.data rest2

/-- `checkRefCtx`: syntax check, then path-segment lookup in the Index's
`Context` map (the `#fragment` is ignored). -/
def checkRefCtx {α : Type} (repo : RulebookRepository) (whereStr : String)
    (artifact : RulebookArtifact α) (path : List String) (value : String) :
    Except CrossRefFailure Unit :=
  let pos := getLineColByPath artifact.yaml artifact.cst path
  match refCtxMatch value.data with
  | none =>
    .error (.parseError
      { message := whereStr ++ ": " ++ String.intercalate "." path ++
          " has invalid context reference format"
        source := artifact.yaml, file := artifact.file
        line := (pos.map Prod.fst).getD 1, column := (pos.map Prod.snd).getD 1 })
  | some (ref, _) =>
    match repo.getIndex with
    | none => .error (.internalError "index still not available")
    | some index =>
      let refStr := String.mk ref
      if objectPathGetDefined index.obj.Context
          ((splitOnChar '.' ref).map String.mk) then
        .ok ()
      else
        .error (.parseError
          { message := whereStr ++ ": " ++ String.intercalate "." path ++
              " must be a valid reference: context \"" ++ refStr ++
              "\" is not defined in index"
            source := artifact.yaml, file := artifact.file
            line := (pos.map Prod.fst).getD 1
            column := (pos.map Prod.snd).getD 1 })

/-- `checkRefAspect`: syntax check, id lookup, optional sub-id lookup
among the aspect's assessment levels. -/
def checkRefAspect {α : Type} (repo : RulebookRepository) (whereStr : String)
    (artifact : RulebookArtifact α) (path : List String) (value : String) :
    Except CrossRefFailure Unit :=
  let pos := getLineColByPath artifact.yaml artifact.cst path
  let mkErr := fun (msg : String) =>
    CrossRefFailure.parseError
      { message := msg, source := artifact.yaml, file := artifact.file
        line := (pos.map Prod.fst).getD 1, column := (pos.map Prod.snd).getD 1 }
  match refAspectMatch value.data with
  | none =>
    .error (mkErr (whereStr ++ ": " ++ String.intercalate "." path ++
      " has invalid aspect reference format"))
  | some (idc, sub) =>
    let id := String.mk idc
    match repo.findAspectById id with
    | none =>
      .error (mkErr (whereStr ++ ": " ++ String.intercalate "." path ++
        " must be a valid reference: aspect with id \"" ++ id ++
        "\" is not defined"))
    | some aspect =>
      match sub with
      | none => .ok ()
      | some subc =>
        let subStr := String.mk subc
        if levelKeysDesc.any (fun key =>
            match aspect.obj.Assessment.get key with
            | some lv => lv.Id = subStr
            | none => false) then
          .ok ()
        else
          .error (mkErr (whereStr ++ ": " ++ String.intercalate "." path ++
            " must be a valid reference: aspect with id \"" ++ id ++
            "\" has no assessment with id \"" ++ subStr ++ "\" defined"))

/-- The `Assess` statement loop of `validateCrossRefs`: for each
statement index and each of MUST/SHOULD/MAY/WONT in order, check a
populated value as a context reference. -/
def checkStmtsLoop (repo : RulebookRepository)
    (aspect : RulebookArtifact AspectType) (key : String) :
    Nat → List AssessStatement → Except CrossRefFailure Unit
  | _, [] => .ok ()
  | i, st :: rest => do
    let whereStr := "aspect with id " ++ aspect.obj.Id
    match st.MUST with
    | some v =>
      checkRefCtx repo whereStr aspect
        ["Assessment", key, "Assess", toString i, "MUST"] v
    | none => .ok ()
    match st.SHOULD with
    | some v =>
      checkRefCtx repo whereStr aspect
        ["Assessment", key, "Assess", toString i, "SHOULD"] v
    | none => .ok ()
    match st.MAY with
    | some v =>
      checkRefCtx repo whereStr aspect
        ["Assessment", key, "Assess", toString i, "MAY"] v
    | none => .ok ()
    match st.WONT with
    | some v =>
      checkRefCtx repo whereStr aspect
        ["Assessment", key, "Assess", toString i, "WONT"] v
    | none => .ok ()
    checkStmtsLoop repo aspect key (i + 1) rest

/-- The assessment surface of one aspect.  The source iterates the
object's keys in insertion order; the model fixes the descending key
order (no settled claim depends on which of several errors comes
first). -/
def checkAspectAssessments (repo : RulebookRepository)
    (aspect : RulebookArtifact AspectType) : Except CrossRefFailure Unit :=
  levelKeysDesc.forM (fun key =>
    match aspect.obj.Assessment.get key with
    | none => .ok ()
    | some assessment =>
      match assessment.Assess with
      | none => .ok ()
      | some stmts => checkStmtsLoop repo aspect key 0 stmts)

/-- The relation surface of one aspect.  Mirrors the source exactly:
`Scope` is checked as an aspect reference, `Demand`/`Context`/
`Responsible` as context references and `See-Also` according to its
prefix; `Relation.Support` is not visited by the source loop. -/
def checkRelationsLoop (repo : RulebookRepository)
    (aspect : RulebookArtifact AspectType) :
    Nat → List Relation → Except CrossRefFailure Unit
  | _, [] => .ok ()
  | i, rel :: rest => do
    let whereStr := "aspect with id " ++ aspect.obj.Id
    match rel.Scope with
    | some v =>
      checkRefAspect repo whereStr aspect ["Relation", toString i, "Scope"] v
    | none => .ok ()
    match rel.Demand with
    | some v =>
      checkRefCtx repo whereStr aspect ["Relation", toString i, "Demand"] v
    | none => .ok ()
    match rel.Context with
    | some v =>
      checkRefCtx repo whereStr aspect ["Relation", toString i, "Context"] v
    | none => .ok ()
    match rel.Responsible with
    | some v =>
      checkRefCtx repo whereStr aspect ["Relation", toString i, "Responsible"] v
    | none => .ok ()
    match rel.SeeAlso with
    | some v =>
      if v.startsWith "ctx:" then
        checkRefCtx repo whereStr aspect ["Relation", toString i, "See-Also"] v
      else .ok ()
    | none => .ok ()
    match rel.SeeAlso with
    | some v =>
      if v.startsWith "aspect:" then
        checkRefAspect repo whereStr aspect ["Relation", toString i, "See-Also"] v
      else .ok ()
    | none => .ok ()
    checkRelationsLoop repo aspect (i + 1) rest

/-- `validateCrossRefs`: fail-fast walk over both reference surfaces of
every aspect. -/
def validateCrossRefs (repo : RulebookRepository) : Except CrossRefFailure Unit :=
  match repo.getIndex with
  | none => .error (.internalError "index still not available")
  | some _ => do
    repo.getAspects.forM (fun aspect => checkAspectAssessments repo aspect)
    repo.getAspects.forM (fun aspect =>
      match aspect.obj.Relations with
      | none => .ok ()
      | some rels => checkRelationsLoop repo aspect 0 rels)

/-! ### Markup generator (`rulebook-generator.ts`) -/

/-- `escapeHtml`: the source performs five sequential global
single-character replaces (`&`, `<`, `>`, `"`, the apostrophe); since no
replacement string contains a later target, that equals this single
character-wise pass. -/
def escapeHtmlChar (c : Char) : List Char :=
  if c = '&' then "&amp;".data
  else if c = '<' then "&lt;".data
  else if c = '>' then "&gt;".data
  else if c = '"' then "&quot;".data
  else if c = Char.ofNat 39 then "&#039;".data
  else [c]

def escapeHtml (text : String) : String :=
  String.mk (text.data.flatMap escapeHtmlChar)

/-- JavaScript `\s` for the characters that can occur here. -/
def isJsWs (c : Char) : Bool :=
  c = ' ' ∨ c = '\t' ∨ c = '\n' ∨ c = '\r' ∨ c = Char.ofNat 11 ∨ c = Char.ofNat 12

/-- `html.replace(/^\s*<p>/, "")`: strip one leading
whitespace-then-`<p>` prefix, if present. -/
def stripLeadingP (cs : List Char) : List Char :=
  let ws := cs.takeWhile isJsWs
  match cs.drop ws.length with
  | '<' :: 'p' :: '>' :: tail => tail
  | _ => cs

/-- `html.replace(/<\/p>\s*$/, "")`: delete the leftmost `</p>` that is
followed only by whitespace up to the end. -/
def stripTrailingP : List Char → List Char
  | [] => []
  | '<' :: '/' :: 'p' :: '>' :: tail =>
    if tail.all isJsWs then []
    else '<' :: stripTrailingP ('/' :: 'p' :: '>' :: tail)
  | c :: rest => c :: stripTrailingP rest

/-- `md2html` with the external `marked` renderer as an oracle: render,
then strip the enclosing paragraph tags. -/
def md2html (marked : String → String) (markdown : String) : String :=
  String.mk (stripTrailingP (stripLeadingP (marked markdown).data))

/-- The generator's context pattern `/^ctx:([^.]+)\.([^.]+)(?:#(.+))?$/`.
`[^.]+` is a negated class (it admits `#` and line terminators), so the
first capture is everything before the first dot.  When the remainder
after that dot contains no further dot, the greedy second capture
swallows it whole and no fragment is produced; otherwise the extra dots
must sit inside the fragment, and backtracking picks the rightmost `#`
before the next dot with an admissible `(.+)` tail. -/
def lastHashBeforeFirstDot (r : List Char) : Option Nat :=
  let p := (r.takeWhile (fun c => c ≠ '.')).length
  ((List.range p).filter (fun k =>
    1 ≤ k ∧ r.get? k = some '#' ∧ (r.drop (k + 1)).all isDotChar)).max?

def matchCtxGen (cs : List Char) :
    Option (List Char × List Char × Option (List Char)) :=
  match cs with
  | 'c' :: 't' :: 'x' :: ':' :: rest =>
    match breakAtFirst '.' rest with
    | none => none
    | some (m1, r) =>
      if m1.isEmpty then none
      else if r.isEmpty then none
      else if ¬r.contains '.' then some (m1, r, none)
      else
        match lastHashBeforeFirstDot r with
        | none => none
        | some k => some (m1, r.take k, some (r.drop (k + 1)))
  | _ => none

/-- The generator's `/^aspect:(.+)$/`. -/
def matchAspectGen (cs : List Char) : Option (List Char) :=
  match cs with
  | 'a' :: 's' :: 'p' :: 'e' :: 'c' :: 't' :: ':' :: rest =>
    if ¬rest.isEmpty ∧ rest.all isDotChar then some rest else none
  | _ => none

/-- `name.match(/^(.+)#(.+)$/)`: split at the rightmost `#` having a
non-empty part on both sides. -/
def lastHashSplit (name : List Char) : Option (List Char × List Char) :=
  match ((List.range name.length).filter (fun q =>
    1 ≤ q ∧ name.get? q = some '#' ∧ q + 1 < name.length)).max? with
  | some q => some (name.take q, name.drop (q + 1))
  | none => none

/-- The generator's `/^https?:.+/` (unanchored). -/
def urlTestGen (cs : List Char) : Bool :=
  match cs with
  | 'h' :: 't' :: 't' :: 'p' :: rest =>
    match rest with
    | ':' :: c :: _ => isDotChar c
    | 's' :: ':' :: c :: _ => isDotChar c
    | _ => false
  | _ => false

/-- The generator's `/^md:(.+)$/`. -/
def mdMatchGen (cs : List Char) : Option (List Char) :=
  match cs with
  | 'm' :: 'd' :: ':' :: tail =>
    if ¬tail.isEmpty ∧ tail.all isDotChar then some tail else none
  | _ => none

/-- `ref2html`: dispatch on the four reference literal forms; an
unrecognized literal throws `bad reference`. -/
def ref2html (marked : String → String) (ref : String) : Except String String :=
  match matchCtxGen ref.data with
  | some (m1c, m2c, fragc) =>
    let m1 := String.mk m1c
    let m2 := String.mk m2c
    .ok ("<a href=\"#ctx-" ++ escapeHtml m1 ++ "-" ++ escapeHtml m2 ++ "\">" ++
      escapeHtml m1 ++ "<span class=\"rarr\">&#x25B6;</span>" ++
      "<strong>" ++ escapeHtml m2 ++
      (match fragc with
       | some f => " # " ++ escapeHtml (String.mk f)
       | none => "") ++
      "</strong></a>")
  | none =>
    match matchAspectGen ref.data with
    | some namec =>
      match lastHashSplit namec with
      | some (idc, subc) =>
        .ok ("<a href=\"#" ++ escapeHtml (String.mk idc) ++ "-" ++
          escapeHtml (String.mk subc) ++ "\"><strong>" ++
          escapeHtml (String.mk idc) ++ "</strong>" ++
          "<span class=\"rarr\">&#x25B7;</span><strong>" ++
          escapeHtml (String.mk subc) ++ "</strong></a>")
      | none =>
        .ok ("<a href=\"#" ++ escapeHtml (String.mk namec) ++ "\"><strong>" ++
          escapeHtml (String.mk namec) ++ "</strong></a>")
    | none =>
      if urlTestGen ref.data then
        .ok ("<a href=\"" ++ escapeHtml ref ++ "\">" ++ escapeHtml ref ++ "</a>")
      else
        match mdMatchGen ref.data with
        | some mdc => .ok (md2html marked (String.mk mdc))
        | none => .error ("bad reference: \"" ++ ref ++ "\"")

/-! #### Card assessment block: tier classes and Optimize pairing -/

inductive Tier where
  | NONE
  | WONT
  | MAY
  | SHOULD
  | MUST
  deriving DecidableEq, Repr

/-- The literal the tier scan matches (`/^ctx:Control\.msg-CTO$/` is an
exact-equality test). -/
def ctrlTarget : String := "ctx:Control.msg-CTO"

def stField (st : AssessStatement) : Tier → Option String
  | .MUST => st.MUST
  | .SHOULD => st.SHOULD
  | .MAY => st.MAY
  | .WONT => st.WONT
  | .NONE => none

/-- The inner `for (const type of ["WONT","MAY","SHOULD","MUST"])` with
its `findIndex`/`break`: the first of the four types for which some
statement's value equals the control target. -/
def levelTier (l : AssessmentLevel) : Option Tier :=
  [Tier.WONT, Tier.MAY, Tier.SHOULD, Tier.MUST].find? (fun t =>
    match l.Assess with
    | none => false
    | some stmts => stmts.any (fun st => stField st t = some ctrlTarget))

/-- The write loop `for (let j = i; j <= A.length; j++) types[j] = …`
restricted to the slots the renderer reads (the source also writes one
phantom slot at index `A.length`, which is never read). -/
def applySetter (i : Nat) (t : Tier) : Nat → List Tier → List Tier
  | _, [] => []
  | j, v :: rest =>
    (if i ≤ j then (if t = .MUST ∧ i < j then .NONE else t) else v) ::
      applySetter i t (j + 1) rest

def computeTypesAux : List AssessmentLevel → Nat → List Tier → List Tier
  | [], _, types => types
  | l :: rest, i, types =>
    match levelTier l with
    | none => computeTypesAux rest (i + 1) types
    | some t => computeTypesAux rest (i + 1) (applySetter i t 0 types)

/-- The `types` array of the card renderer: initialised to NONE for
every populated level, then overwritten by the descending scan. -/
def computeTypes (A : List AssessmentLevel) : List Tier :=
  computeTypesAux A 0 (List.replicate A.length Tier.NONE)

/-- The tier classes rendered for an aspect's populated levels (in
descending key order).  The source's `assessmentLevels.map(key =>
…[key]!)` over present keys equals `presentLevelsDesc`. -/
def printAssessmentTiers (x : AspectType) : List Tier :=
  computeTypes x.Assessment.presentLevelsDesc

/-- Specification-side description used to state the tier theorem: the
last populated index `i ≤ j` (in descending order) whose level carries a
control-target statement, together with the tier it sets. -/
def lastSetterAux : List AssessmentLevel → Nat → Nat → Option (Nat × Tier) →
    Option (Nat × Tier)
  | [], _, _, acc => acc
  | l :: rest, i, j, acc =>
    if j < i then acc
    else
      lastSetterAux rest (i + 1) j
        (match levelTier l with
         | some t => some (i, t)
         | none => acc)

def lastSetter (A : List AssessmentLevel) (j : Nat) : Option (Nat × Tier) :=
  lastSetterAux A 0 j none

/-- `assessments.filter(Optimize !== undefined).map(Optimize!)`. -/
def optimizeLabels (assessments : List AssessmentLevel) : List String :=
  assessments.filterMap (fun a => a.Optimize)

/-- The `space` block of the card assessment rendering: with more than
one populated level, the first two Optimize labels become the top and
bottom labels (missing ones throw); otherwise the `bg empty` variant is
rendered with no labels (`ok none`). -/
def printAssessmentSpace (aspectId : String)
    (assessments : List AssessmentLevel) : Except String (Option (String × String)) :=
  if assessments.length > 1 then
    let labels := optimizeLabels assessments
    match labels.get? 0 with
    | none =>
      .error ("first/top Optimize information missing in assessment of aspect " ++
        aspectId)
    | some top =>
      match labels.get? 1 with
      | none =>
        .error ("second/bottom Optimize information missing in assessment of aspect " ++
          aspectId)
      | some bottom => .ok (some (top, bottom))
  else .ok none

/-! ### Nested-scope text builder (`Generator`, part_000)

The mutable `child` pointer always references the last-pushed, still
open sub-generator; the model keeps the open child in a separate field
and moves it into the content list when it is closed, which is
observationally identical. -/

inductive Gen where
  | mk (content : List (String ⊕ Gen)) (child : Option Gen)

def Gen.contentOf : Gen → List (String ⊕ Gen)
  | .mk content _ => content

def Gen.childOf : Gen → Option Gen
  | .mk _ child => child

/-- `add`: append a full line to the deepest open scope. -/
def Gen.add : Gen → String → Gen
  | .mk content (some c), s => .mk content (some (c.add s))
  | .mk content none, s => .mk (content ++ [.inl s]) none

/-- `append`: extend the last entry of the deepest open scope in place
(a closed sub-generator entry coerces to `"[object Object]"`, as `+=`
does in JavaScript). -/
def Gen.append : Gen → String → Gen
  | .mk content (some c), s => .mk content (some (c.append s))
  | .mk content none, s =>
    match content.getLast? with
    | none => .mk [.inl s] none
    | some last =>
      .mk (content.dropLast ++
        [match last with
         | .inl t => .inl (t ++ s)
         | .inr _ => .inl ("[object Object]" ++ s)]) none

/-- `open`: create and focus a child scope one level deeper. -/
def Gen.openScope : Gen → Gen
  | .mk content (some c) => .mk content (some c.openScope)
  | .mk content none => .mk content (some (.mk [] none))

/-- `close`: end the deepest open scope (`none` models the
`"already at top-level"` throw). -/
def Gen.closeScope : Gen → Option Gen
  | .mk _ none => none
  | .mk content (some c) =>
    match c with
    | .mk _ (some _) => (c.closeScope).map (fun c' => Gen.mk content (some c'))
    | .mk ccontent none => some (.mk (content ++ [.inr (.mk ccontent none)]) none)

/-- Client programs over the builder: `add`, `append` and `group`
(whose body is again such a program). -/
inductive Cmd where
  | add (s : String)
  | append (s : String)
  | group (opening closing : String) (body : List Cmd)

mutual

/-- Run one builder call.  `group` delegates to the deepest open scope
(as every method does); on the focus scope it is
`add(opening); sub(body); add(closing)` with
`sub = open(); body; close()`. -/
def runCmd : Cmd → Gen → Option Gen
  | .add s, g => some (g.add s)
  | .append s, g => some (g.append s)
  | .group o c body, .mk content (some ch) =>
    (runCmd (.group o c body) ch).map (fun ch' => Gen.mk content (some ch'))
  | .group o c body, .mk content none =>
    let g1 := (Gen.mk content none).add o
    let g2 := g1.openScope
    (runCmds body g2).bind (fun g3 =>
      (g3.closeScope).map (fun g4 => g4.add c))

def runCmds : List Cmd → Gen → Option Gen
  | [], g => some g
  | cmd :: rest, g => (runCmd cmd g).bind (fun g' => runCmds rest g')

end

def strRepeat (s : String) : Nat → String
  | 0 => ""
  | n + 1 => s ++ strRepeat s n

/-- `renderLevel`: concatenate entries depth-first, indenting each line
by the level's padding. -/
def renderEntries (pad : String) : Nat → List (String ⊕ Gen) → String
  | _, [] => ""
  | level, .inl s :: rest =>
    strRepeat pad level ++ s ++ "\n" ++ renderEntries pad level rest
  | level, .inr (.mk c _) :: rest =>
    renderEntries pad (level + 1) c ++ renderEntries pad level rest

/-- `render(indent, level)`: with an open child, render that subtree
from level 0; otherwise render the content at the given level. -/
def Gen.render (g : Gen) (indent : Nat) (level : Nat) : String :=
  match g with
  | .mk _ (some c) => c.render indent 0
  | .mk content none => renderEntries (strRepeat " " indent) level content

/-! ### Concrete instances used by the claim theorems -/

/-- An index whose `Context` map is empty. -/
def indexC1 : IndexType :=
  { Editing := { Created := "2025-01-01", Modified := "2025-01-02" }
    Validity := { From := "2025-01-01", Until := "..." }
    Id := "IX", Name := "Index", Version := "1.0"
    Author := { Name := "A", Email := "a@example.org", Web := "https://example.org/" }
    Description := "d", Context := [] }

/-- An aspect whose only reference anywhere is a `Support` relation
holding a context reference that resolves nowhere. -/
def aspectC1 : AspectType :=
  { Id := "A1", Name := "Aspect", Objective := "o", Assessment := {}
    Relations := some [{ Support := some "ctx:Foo.Bar" }] }

def repoC1 : RulebookRepository :=
  { index := some { obj := indexC1 }, aspects := [{ obj := aspectC1 }] }

/-- The freshly constructed repository (no index, no aspects). -/
def repoEmpty : RulebookRepository := {}

/-- The claim's concrete aspect: levels 5 and 2 populated, Optimize
labels "Speed" and "Cost". -/
def aspectC4 : AspectType :=
  { Id := "A4", Name := "Aspect", Objective := "o"
    Assessment :=
      { level5 := some { Id := "L5", What := "w5", Optimize := some "Speed" }
        level2 := some { Id := "L2", What := "w2", Optimize := some "Cost" } } }

/-- Spec-side reading of the claim's truncation rule, for comparison
with the source's `truncAtColon`: truncate at the first colon that is
immediately followed by a newline (a "colon-newline boundary"). -/
def specTruncColonNewline : List Char → List Char
  | [] => []
  | c :: rest =>
    if c = ':' ∧ (rest.head? = some '\n' ∨ rest.take 2 = ['\r', '\n']) then []
    else c :: specTruncColonNewline rest

def yamlW : List Char := "a: b\nc: d".data

def rootW : CST := .node (some (0, 9, 9)) [("c", .node (some (5, 9, 9)) [])]

/-- The claim's concrete scenario: levels 5 down to 0 populated, only
level 5 carrying a MUST statement on the control literal. -/
def aspectC2 : AspectType :=
  { Id := "A2", Name := "Aspect", Objective := "o"
    Assessment :=
      { level5 := some { Id := "L5", What := "w5"
                         Assess := some [{ MUST := some "ctx:Control.msg-CTO" }] }
        level4 := some { Id := "L4", What := "w4" }
        level3 := some { Id := "L3", What := "w3" }
        level2 := some { Id := "L2", What := "w2" }
        level1 := some { Id := "L1", What := "w1" }
        level0 := some { Id := "L0", What := "w0" } } }

/-- Join identifier segments with dots (builds test inputs for the
reference grammar). -/
def joinDots : List (List Char) → List Char
  | [] => []
  | [s] => s
  | s :: rest => s ++ '.' :: joinDots rest

/-- A context reference literal `ctx:<seg>.<seg>…[#<frag>]`. -/
def mkCtxLiteral (segs : List (List Char)) (frag : Option (List Char)) :
    List Char :=
  'c' :: 't' :: 'x' :: ':' ::
    (joinDots segs ++
      match frag with
      | none => []
      | some f => '#' :: f)

/-! ### Schema well-formedness of stored documents (C3/C10)

Every document held by the repository came through schema validation
(`parse` or `import`), so its reference-grammar leaves satisfy the
narrow checks.  These predicates record exactly that. -/

def wfEditing (e : Editing) : Bool :=
  dateTestS e.Created ∧ dateTestS e.Modified

def wfValidity (v : Validity) : Bool :=
  dateTestS v.From ∧ (dateTestS v.Until ∨ v.Until = "...")

def wfAuthor (a : Author) : Bool :=
  refEmailTestS a.Email ∧ refUrlTestS a.Web

def wfIndex (x : IndexType) : Bool :=
  wfEditing x.Editing ∧ wfValidity x.Validity ∧ wfAuthor x.Author

def wfStatement (st : AssessStatement) : Bool :=
  st.MUST.all refCtxTestS ∧ st.SHOULD.all refCtxTestS ∧
  st.MAY.all refCtxTestS ∧ st.WONT.all refCtxTestS

def wfLevel (l : AssessmentLevel) : Bool :=
  l.Assess.all (fun sts => sts.all wfStatement)

def wfAssessment (a : Assessment) : Bool :=
  a.level9.all wfLevel ∧ a.level8.all wfLevel ∧ a.level7.all wfLevel ∧
  a.level6.all wfLevel ∧ a.level5.all wfLevel ∧ a.level4.all wfLevel ∧
  a.level3.all wfLevel ∧ a.level2.all wfLevel ∧ a.level1.all wfLevel ∧
  a.level0.all wfLevel

def wfRelation (r : Relation) : Bool :=
  r.Scope.all refAspectTestS ∧ r.Support.all refCtxTestS ∧
  r.Demand.all refCtxTestS ∧ r.Context.all refCtxTestS ∧
  r.Responsible.all refCtxTestS ∧ r.SeeAlso.all seeAlsoTest

def wfAspect (x : AspectType) : Bool :=
  x.Editing.all wfEditing ∧ x.Validity.all wfValidity ∧
  wfAssessment x.Assessment ∧ x.Relations.all (fun rs => rs.all wfRelation)

/-- C1: the code result on the claim's failing input.  The claim (and
§4.5 of the specification) says `Support` is checked as a context
reference, so `validateCrossRefs` should fail naming `Foo.Bar`; the
source's relation loop visits `Scope`, `Demand`, `Context`,
`Responsible` and `See-Also` but never `Support`, so validation
succeeds although the only reference in the repository is an
unresolvable `Support` value. -/
theorem c1_support_not_checked :
    aspectC1.Relations = some [{ Support := some "ctx:Foo.Bar" }] ∧
    refCtxTestS "ctx:Foo.Bar" = true ∧
    objectPathGetDefined indexC1.Context ["Foo", "Bar"] = false ∧
    validateCrossRefs repoC1 = .ok () :=
  ⟨rfl, by decide, rfl, rfl⟩

/-- C3 counterexample: on a repository whose index is not set, `export`
writes `index: null` and `import` then throws its top-level shape error
(`typeof null === "object"` but `obj.index !== null` fails), so
`import(export(repository))` does not yield a repository at all. -/
theorem c3_roundtrip_fails_without_index :
    serializerImport repoEmpty (serializerExport repoEmpty)
      = (repoEmpty, some "import structure does not contain top-level 'index' field") :=
  rfl

/-- C4: behaviour of the card assessment `space` block.  With exactly
one populated level the `bg empty` variant is rendered with no labels
(`ok none`); with two or more populated levels the first two Optimize
labels (descending level order) become the top/bottom pair, and with
fewer than two labels the render throws an error naming the aspect's
id. -/
theorem c4_optimize_pairing (x : AspectType) :
    (x.Assessment.presentLevelsDesc.length = 1 →
      printAssessmentSpace x.Id x.Assessment.presentLevelsDesc = .ok none) ∧
    (∀ top bottom rest, 2 ≤ x.Assessment.presentLevelsDesc.length →
      optimizeLabels x.Assessment.presentLevelsDesc = top :: bottom :: rest →
      printAssessmentSpace x.Id x.Assessment.presentLevelsDesc
        = .ok (some (top, bottom))) ∧
    (2 ≤ x.Assessment.presentLevelsDesc.length →
      optimizeLabels x.Assessment.presentLevelsDesc = [] →
      printAssessmentSpace x.Id x.Assessment.presentLevelsDesc
        = .error ("first/top Optimize information missing in assessment of aspect "
            ++ x.Id)) ∧
    (∀ lab, 2 ≤ x.Assessment.presentLevelsDesc.length →
      optimizeLabels x.Assessment.presentLevelsDesc = [lab] →
      printAssessmentSpace x.Id x.Assessment.presentLevelsDesc
        = .error ("second/bottom Optimize information missing in assessment of aspect "
            ++ x.Id)) := by
  constructor
  · intro h1
    simp [printAssessmentSpace, h1]
  constructor
  · intro top bottom rest h2 hlab
    have hgt : x.Assessment.presentLevelsDesc.length > 1 := h2
    simp [printAssessmentSpace, hgt, hlab]
  constructor
  · intro h2 hlab
    have hgt : x.Assessment.presentLevelsDesc.length > 1 := h2
    simp [printAssessmentSpace, hgt, hlab]
  · intro lab h2 hlab
    have hgt : x.Assessment.presentLevelsDesc.length > 1 := h2
    simp [printAssessmentSpace, hgt, hlab]

theorem c4_optimize_pairing_witness :
    printAssessmentSpace aspectC4.Id aspectC4.Assessment.presentLevelsDesc
      = .ok (some ("Speed", "Cost")) :=
  (c4_optimize_pairing aspectC4).2.1 "Speed" "Cost" [] (by decide) (by decide)

/-- C5 counterexample: the YAML parser message `"a: b"` has a colon with
no newline after it.  The claim's rule ("truncated at the first
colon-newline boundary") would leave the message untouched, but the
source's `replace(/:(?:.|\r?\n)*$/, "")` strips from the first colon to
the end, so the produced `ParseError` message differs from the claim's
prediction. -/
theorem c5_truncation_counterexample :
    (syntacticParseFailure "index" "file.yaml" "x".data
        { message := "a: b", linePos := some (3, 5) }).message
      ≠ "failed to syntactically parse index YAML specification: " ++
          String.mk (specTruncColonNewline "a: b".data) := by
  decide

/-- C5 (amended): on a syntactic YAML failure the `ParseError` carries
the parser's reported line/column unchanged, and its message is the
parser's message truncated from the first admissible colon to the end
(whether or not a newline follows the colon). -/
theorem c5_syntactic_failure (yamlParse : List Char → Except YAMLParseError Json)
    (specType file : String) (yamlText : List Char) (e : YAMLParseError)
    (l c : Nat) (he : yamlParse yamlText = .error e)
    (hp : e.linePos = some (l, c)) :
    parseYamlSyntactic yamlParse specType file yamlText
      = .error
          { message := "failed to syntactically parse " ++ specType ++
              " YAML specification: " ++ truncAtColonS e.message
            source := yamlText, file := file, line := l, column := c } := by
  simp [parseYamlSyntactic, he, syntacticParseFailure, hp]

theorem c5_syntactic_failure_witness :
    parseYamlSyntactic
      (fun _ => .error { message := "bad k: v\ndetail", linePos := some (2, 7) })
      "index" "f.yaml" "k".data
      = .error
          { message := "failed to syntactically parse index YAML specification: bad k"
            source := "k".data, file := "f.yaml", line := 2, column := 7 } :=
  Eq.trans
    (c5_syntactic_failure
      (fun _ => .error { message := "bad k: v\ndetail", linePos := some (2, 7) })
      "index" "f.yaml" "k".data
      { message := "bad k: v\ndetail", linePos := some (2, 7) } 2 7 rfl rfl)
    rfl

/-! ### Lemmas about splitting and the prefix walk (for C6) -/

theorem splitOnChar_ne_nil (c : Char) (cs : List Char) : splitOnChar c cs ≠ [] := by
  cases cs with
  | nil => simp [splitOnChar]
  | cons x xs =>
    by_cases h : x = c
    · simp [splitOnChar, h]
    · simp only [splitOnChar, if_neg h]
      cases hs : splitOnChar c xs <;> simp

theorem splitOnChar_length (c : Char) (cs : List Char) :
    (splitOnChar c cs).length = cs.count c + 1 := by
  induction cs with
  | nil => simp [splitOnChar]
  | cons x xs ih =>
    by_cases h : x = c
    · subst h
      simp [splitOnChar, List.count_cons, ih]
    · simp only [splitOnChar, if_neg h]
      cases hs : splitOnChar c xs with
      | nil => exact absurd hs (splitOnChar_ne_nil c xs)
      | cons l ls =>
        rw [hs] at ih
        simp only [List.length_cons] at ih ⊢
        rw [List.count_cons]
        simp [h, ← ih]

/-- First hit of a descending index walk `n, n-1, …, 0`. -/
theorem findSome_rev_range {α : Type} (f : Nat → Option α) :
    ∀ (n i : Nat) (v : α), i ≤ n → f i = some v →
      (∀ j, i < j → j ≤ n → f j = none) →
      (List.range (n + 1)).reverse.findSome? f = some v := by
  intro n
  induction n with
  | zero =>
    intro i v hi hv _
    interval_cases i
    simp [List.range_succ, List.findSome?, hv]
  | succ n ih =>
    intro i v hi hv hafter
    have hsplit : (List.range (n + 2)).reverse = (n + 1) :: (List.range (n + 1)).reverse := by
      rw [List.range_succ, List.reverse_append]
      rfl
    rw [hsplit]
    rcases Nat.lt_or_ge i (n + 1) with hlt | hge
    · have htop : f (n + 1) = none := hafter (n + 1) hlt (Nat.le_refl _)
      rw [List.findSome?_cons, htop]
      exact ih i v (Nat.lt_succ_iff.mp hlt) hv
        (fun j h1 h2 => hafter j h1 (Nat.le_succ_of_le h2))
    · have : i = n + 1 := Nat.le_antisymm hi hge
      subst this
      rw [List.findSome?_cons, hv]

/-- C6: the position resolver returns absent when the source text is
empty, the tree is unavailable, or no prefix of the path reaches a node
carrying a range; otherwise it walks the prefixes from full depth down
to the root and returns the 1-based line/column of the start offset of
the first prefix node with a range, the line being one more than the
number of newlines in the text preceding that offset. -/
theorem c6_position_resolution :
    (∀ (cst : Option CST) (path : List String),
      getLineColByPath [] cst path = none) ∧
    (∀ (yaml : List Char) (path : List String),
      getLineColByPath yaml none path = none) ∧
    (∀ (yaml : List Char) (root : CST) (path : List String),
      (∀ i, i ≤ path.length →
        (match root.getIn (path.take i) with
         | some n => n.range = none
         | none => True)) →
      getLineColByPath yaml (some root) path = none) ∧
    (∀ (yaml : List Char) (root : CST) (path : List String) (i : Nat)
      (n : CST) (st en1 en2 : Nat),
      yaml ≠ [] → i ≤ path.length →
      root.getIn (path.take i) = some n → n.range = some (st, en1, en2) →
      (∀ j, i < j → j ≤ path.length →
        (match root.getIn (path.take j) with
         | some n' => n'.range = none
         | none => True)) →
      getLineColByPath yaml (some root) path = some (getLineColByOffset yaml st) ∧
      (getLineColByOffset yaml st).1 = (yaml.take st).count '\n' + 1) := by
  refine ⟨?_, ?_, ?_, ?_⟩
  · intro cst path
    simp [getLineColByPath]
  · intro yaml path
    by_cases h : yaml = [] <;> simp [getLineColByPath, h]
  · intro yaml root path hall
    by_cases h : yaml = []
    · simp [getLineColByPath, h]
    · simp only [getLineColByPath, if_neg h]
      rw [List.findSome?_eq_none_iff]
      intro i hi
      have hi' : i ≤ path.length := by
        have hmem : i ∈ List.range (path.length + 1) := List.mem_reverse.mp hi
        exact Nat.lt_succ_iff.mp (List.mem_range.mp hmem)
      have hspec := hall i hi'
      cases hg : root.getIn (path.take i) with
      | none => simp [hg]
      | some nd =>
        rw [hg] at hspec
        simp [hg, hspec]
  · intro yaml root path i n st en1 en2 hne hi hget hrange hafter
    constructor
    · simp only [getLineColByPath, if_neg hne]
      exact findSome_rev_range _ path.length i _ hi
        (by simp [hget, hrange])
        (fun j h1 h2 => by
          have := hafter j h1 h2
          cases hg : root.getIn (path.take j) with
          | none => simp [hg]
          | some nd =>
            rw [hg] at this
            simp [hg, this])
    · simp only [getLineColByOffset]
      rw [splitNL, splitOnChar_length]

theorem c6_position_resolution_witness :
    getLineColByPath yamlW (some rootW) ["c", "x"] = some (2, 1) :=
  Eq.trans
    ((c6_position_resolution.2.2.2 yamlW rootW ["c", "x"] 1
      (CST.node (some (5, 9, 9)) []) 5 9 9
      (by decide) (by decide) rfl rfl
      (fun j h1 h2 => by
        have hj : j = 2 := Nat.le_antisymm h2 h1
        subst hj
        exact trivial)).1)
    rfl

/-! ### Lemmas about the tier scan (for C2) -/

theorem applySetter_length (i : Nat) (t : Tier) :
    ∀ (types : List Tier) (j0 : Nat),
      (applySetter i t j0 types).length = types.length := by
  intro types
  induction types with
  | nil => intro j0; rfl
  | cons v rest ih => intro j0; simp [applySetter, ih]

theorem applySetter_getD (i : Nat) (t : Tier) :
    ∀ (types : List Tier) (j0 j : Nat), j < types.length →
      (applySetter i t j0 types).getD j .NONE =
        if i ≤ j0 + j then (if t = .MUST ∧ i < j0 + j then .NONE else t)
        else types.getD j .NONE := by
  intro types
  induction types with
  | nil => intro j0 j h; simp at h
  | cons v rest ih =>
    intro j0 j h
    cases j with
    | zero => simp [applySetter]
    | succ j' =>
      simp only [applySetter, List.getD_cons_succ]
      rw [ih (j0 + 1) j' (by simpa using h)]
      have harith : j0 + 1 + j' = j0 + (j' + 1) := by omega
      rw [harith]

theorem lastSetterAux_stop (j : Nat) :
    ∀ (A : List AssessmentLevel) (i : Nat) (acc : Option (Nat × Tier)),
      j < i → lastSetterAux A i j acc = acc := by
  intro A
  cases A with
  | nil => intro i acc _; rfl
  | cons l rest => intro i acc h; simp [lastSetterAux, h]

theorem lastSetterAux_acc :
    ∀ (A : List AssessmentLevel) (i j : Nat) (acc : Option (Nat × Tier)),
      lastSetterAux A i j acc =
        match lastSetterAux A i j none with
        | some q => some q
        | none => acc := by
  intro A
  induction A with
  | nil => intro i j acc; rfl
  | cons l rest ih =>
    intro i j acc
    by_cases h : j < i
    · simp [lastSetterAux, h]
    · simp only [lastSetterAux, if_neg h]
      cases hl : levelTier l with
      | some t =>
        rw [ih (i + 1) j (some (i, t))]
        cases hX : lastSetterAux rest (i + 1) j none <;> simp
      | none =>
        rw [ih (i + 1) j acc]

theorem getD_replicate_none :
    ∀ (n j : Nat), (List.replicate n Tier.NONE).getD j .NONE = .NONE := by
  intro n
  induction n with
  | zero => intro j; cases j <;> rfl
  | succ n ih =>
    intro j
    cases j with
    | zero => rfl
    | succ j' => exact ih j'

theorem computeTypesAux_getD :
    ∀ (A : List AssessmentLevel) (i : Nat) (types : List Tier) (j : Nat),
      j < types.length →
      (computeTypesAux A i types).getD j .NONE =
        match lastSetterAux A i j none with
        | none => types.getD j .NONE
        | some (i', t) => if t = .MUST ∧ i' < j then .NONE else t := by
  intro A
  induction A with
  | nil => intro i types j _; rfl
  | cons l rest ih =>
    intro i types j h
    cases hl : levelTier l with
    | none =>
      simp only [computeTypesAux, hl]
      rw [ih (i + 1) types j h]
      by_cases hji : j < i
      · rw [lastSetterAux_stop j rest (i + 1) none (by omega)]
        simp only [lastSetterAux, if_pos hji]
      · simp only [lastSetterAux, if_neg hji, hl]
    | some t =>
      simp only [computeTypesAux, hl]
      rw [ih (i + 1) (applySetter i t 0 types) j
        (by rw [applySetter_length]; exact h)]
      by_cases hji : j < i
      · rw [lastSetterAux_stop j rest (i + 1) none (by omega)]
        simp only [lastSetterAux, if_pos hji]
        rw [applySetter_getD i t types 0 j h]
        simp [Nat.not_le.mpr hji]
      · simp only [lastSetterAux, if_neg hji, hl]
        rw [lastSetterAux_acc rest (i + 1) j (some (i, t))]
        cases hX : lastSetterAux rest (i + 1) j none with
        | some p =>
          rcases p with ⟨i', t'⟩
          rfl
        | none =>
          simp only []
          rw [applySetter_getD i t types 0 j h]
          simp [Nat.not_lt.mp hji]

/-- C2: each populated level's rendered tier class.  Scanning populated
levels in descending key order, the tier shown at position `j` is
determined by the nearest position `i ≤ j` whose level carries a
MUST/SHOULD/MAY/WONT statement exactly equal to `ctx:Control.msg-CTO`:
that level shows the tier it sets and propagates it downward, except
that a MUST tier propagates as NONE strictly below its origin; with no
such position the level shows NONE.  In particular, if only the highest
populated level has a MUST statement targeting the control literal,
it shows MUST and every lower level shows NONE. -/
theorem c2_tier_propagation (x : AspectType) (j : Nat)
    (hj : j < x.Assessment.presentLevelsDesc.length) :
    (printAssessmentTiers x).getD j .NONE =
      match lastSetter x.Assessment.presentLevelsDesc j with
      | none => .NONE
      | some (i, t) => if t = .MUST ∧ i < j then .NONE else t := by
  unfold printAssessmentTiers computeTypes lastSetter
  rw [computeTypesAux_getD _ 0 _ j (by simpa using hj)]
  cases h : lastSetterAux x.Assessment.presentLevelsDesc 0 j none with
  | none => simp [getD_replicate_none]
  | some p => rcases p with ⟨i, t⟩; rfl

theorem c2_tier_propagation_witness :
    (printAssessmentTiers aspectC2).getD 0 .NONE = .MUST ∧
    (printAssessmentTiers aspectC2).getD 1 .NONE = .NONE ∧
    (printAssessmentTiers aspectC2).getD 5 .NONE = .NONE :=
  ⟨(c2_tier_propagation aspectC2 0 (by decide)).trans (by decide),
   (c2_tier_propagation aspectC2 1 (by decide)).trans (by decide),
   (c2_tier_propagation aspectC2 5 (by decide)).trans (by decide)⟩

/-! ### Lemmas about the nested-scope builder (for C7) -/

/-- Every builder call on a generator with an open child delegates into
that child. -/
theorem runCmd_delegate (cmd : Cmd) (content : List (String ⊕ Gen)) (c : Gen) :
    runCmd cmd (.mk content (some c))
      = (runCmd cmd c).map (fun c' => Gen.mk content (some c')) := by
  cases cmd with
  | add s => simp [runCmd, Gen.add]
  | append s => simp [runCmd, Gen.append]
  | group o cl body => simp [runCmd]

theorem runCmds_delegate (cmds : List Cmd) :
    ∀ (content : List (String ⊕ Gen)) (c : Gen),
      runCmds cmds (.mk content (some c))
        = (runCmds cmds c).map (fun c' => Gen.mk content (some c')) := by
  induction cmds with
  | nil => intro content c; simp [runCmds]
  | cons cmd rest ih =>
    intro content c
    simp only [runCmds]
    rw [runCmd_delegate]
    cases h : runCmd cmd c with
    | none => simp
    | some c' => simp [ih]

mutual

/-- On a generator with no open child, every single builder call
succeeds and leaves no open child. -/
theorem runCmd_root_total (cmd : Cmd) :
    ∀ (content : List (String ⊕ Gen)),
      ∃ content', runCmd cmd (.mk content none) = some (.mk content' none) := by
  cases cmd with
  | add s =>
    intro content
    exact ⟨content ++ [.inl s], by simp [runCmd, Gen.add]⟩
  | append s =>
    intro content
    cases hlast : content.getLast? with
    | none => exact ⟨[.inl s], by simp [runCmd, Gen.append, hlast]⟩
    | some e =>
      exact ⟨content.dropLast ++
        [match e with
         | .inl t => .inl (t ++ s)
         | .inr _ => .inl ("[object Object]" ++ s)],
        by cases e <;> simp [runCmd, Gen.append, hlast]⟩
  | group o cl body =>
    intro content
    obtain ⟨rc, hrc⟩ := runCmds_root_total body []
    refine ⟨content ++ [.inl o] ++ [.inr (.mk rc none)] ++ [.inl cl], ?_⟩
    simp only [runCmd, Gen.add, Gen.openScope]
    rw [runCmds_delegate, hrc]
    simp [Gen.closeScope, Gen.add]

theorem runCmds_root_total (cmds : List Cmd) :
    ∀ (content : List (String ⊕ Gen)),
      ∃ content', runCmds cmds (.mk content none) = some (.mk content' none) := by
  cases cmds with
  | nil => intro content; exact ⟨content, by simp [runCmds]⟩
  | cons cmd rest =>
    intro content
    obtain ⟨c1, hc1⟩ := runCmd_root_total cmd content
    obtain ⟨c2, hc2⟩ := runCmds_root_total rest c1
    exact ⟨c2, by simp [runCmds, hc1, hc2]⟩

end

theorem renderEntries_append (pad : String) :
    ∀ (level : Nat) (xs ys : List (String ⊕ Gen)),
      renderEntries pad level (xs ++ ys)
        = renderEntries pad level xs ++ renderEntries pad level ys := by
  intro level xs
  induction xs generalizing level with
  | nil => intro ys; simp [renderEntries]
  | cons e rest ih =>
    intro ys
    cases e with
    | inl s => simp [renderEntries, ih, String.append_assoc]
    | inr g =>
      rcases g with ⟨c, ch⟩
      simp [renderEntries, ih, String.append_assoc]

/-- C7: on a generator with no open child scope, `group(o, cl, body)`
(for a body of `add`/`append`/`group` calls) emits `o`, runs the body
inside a fresh child scope, closes exactly that scope, and emits `cl`;
afterwards there is again no open child scope, and in the rendering the
two delimiter lines sit at the original level while the body's lines
sit one level deeper. -/
theorem c7_group_balanced (content : List (String ⊕ Gen)) (o cl : String)
    (body : List Cmd) :
    ∃ bodyContent,
      runCmds body (Gen.mk [] none) = some (Gen.mk bodyContent none) ∧
      runCmd (.group o cl body) (Gen.mk content none)
        = some (Gen.mk
            (content ++ [.inl o, .inr (Gen.mk bodyContent none), .inl cl]) none) ∧
      ∀ (pad : String) (level : Nat),
        renderEntries pad level
            (content ++ [.inl o, .inr (Gen.mk bodyContent none), .inl cl])
          = renderEntries pad level content ++
            (strRepeat pad level ++ o ++ "\n" ++
              (renderEntries pad (level + 1) bodyContent ++
                (strRepeat pad level ++ cl ++ "\n"))) := by
  obtain ⟨rc, hrc⟩ := runCmds_root_total body []
  refine ⟨rc, hrc, ?_, ?_⟩
  · simp only [runCmd, Gen.add, Gen.openScope]
    rw [runCmds_delegate, hrc]
    simp [Gen.closeScope, Gen.add]
  · intro pad level
    rw [renderEntries_append]
    simp [renderEntries, String.append_assoc]

/-! ### Reference rendering (C8) -/

/-- A string matching the generator's URL pattern starts with `http`,
so the context and aspect patterns cannot match it. -/
theorem urlTestGen_matchers (cs : List Char) (hu : urlTestGen cs = true) :
    matchCtxGen cs = none ∧ matchAspectGen cs = none := by
  rw [urlTestGen.eq_def] at hu
  split at hu
  · exact ⟨rfl, rfl⟩
  · exact absurd hu (by simp)

/-- C8: reference-to-markup conversion.  `ctx:Security.Encryption`
renders the anchor to `#ctx-Security-Encryption` labelled
`Security&#x25B6;Encryption`; `aspect:ABC#L1` renders the anchor to
`#ABC-L1`; every string matching the URL pattern renders a plain
anchor; every `md:` literal recurses into the markdown renderer. -/
theorem c8_ref_rendering (marked : String → String) :
    ref2html marked "ctx:Security.Encryption"
      = .ok ("<a href=\"#ctx-Security-Encryption\">Security" ++
          "<span class=\"rarr\">&#x25B6;</span><strong>Encryption</strong></a>") ∧
    ref2html marked "aspect:ABC#L1"
      = .ok ("<a href=\"#ABC-L1\"><strong>ABC</strong>" ++
          "<span class=\"rarr\">&#x25B7;</span><strong>L1</strong></a>") ∧
    (∀ u : String, urlTestGen u.data = true →
      ref2html marked u
        = .ok ("<a href=\"" ++ escapeHtml u ++ "\">" ++ escapeHtml u ++ "</a>")) ∧
    (∀ t : List Char, ¬t.isEmpty → t.all isDotChar →
      ref2html marked (String.mk ('m' :: 'd' :: ':' :: t))
        = .ok (md2html marked (String.mk t))) := by
  refine ⟨rfl, rfl, ?_, ?_⟩
  · intro u hu
    obtain ⟨h1, h2⟩ := urlTestGen_matchers u.data hu
    simp [ref2html, h1, h2, hu]
  · intro t ht1 ht2
    have h1 : matchCtxGen ('m' :: 'd' :: ':' :: t) = none := rfl
    have h2 : matchAspectGen ('m' :: 'd' :: ':' :: t) = none := rfl
    have h3 : urlTestGen ('m' :: 'd' :: ':' :: t) = false := rfl
    have h4 : mdMatchGen ('m' :: 'd' :: ':' :: t) = some t := by
      simp [mdMatchGen, ht1, ht2]
    simp [ref2html, h1, h2, h3, h4]

theorem c8_ref_rendering_witness :
    ref2html id "https://x/" = .ok "<a href=\"https://x/\">https://x/</a>" ∧
    ref2html id "md:y" = .ok (md2html id "y") :=
  ⟨(c8_ref_rendering id).2.2.1 "https://x/" (by decide),
   (c8_ref_rendering id).2.2.2 ['y'] (by decide) (by decide)⟩

/-! ### Multi-segment context literals (C9) -/

theorem joinDots_cons_cons (s t : List Char) (rest : List (List Char)) :
    joinDots (s :: t :: rest) = s ++ '.' :: joinDots (t :: rest) := rfl

theorem identOk_ne_nil {s : List Char} (h : identOk s = true) : s ≠ [] := by
  cases s with
  | nil => simp [identOk] at h
  | cons c rest => simp

theorem identOk_not_mem {s : List Char} (h : identOk s = true) {c : Char}
    (hAlpha : isAlpha c = false) (hIdent : isIdentChar c = false) : c ∉ s := by
  cases s with
  | nil => simp
  | cons x rest =>
    simp only [identOk, Bool.decide_and, Bool.and_eq_true, decide_eq_true_eq] at h
    intro hmem
    rcases List.mem_cons.mp hmem with hc | hr
    · rw [← hc] at h
      rw [hAlpha] at h
      exact absurd h.1 (by simp)
    · have := List.all_eq_true.mp h.2 _ hr
      rw [hIdent] at this
      exact absurd this (by simp)

theorem joinDots_not_mem {segs : List (List Char)} {c : Char} (hc : c ≠ '.')
    (h : ∀ s ∈ segs, c ∉ s) : c ∉ joinDots segs := by
  induction segs with
  | nil => simp [joinDots]
  | cons s rest ih =>
    cases rest with
    | nil => simpa [joinDots] using h s (by simp)
    | cons t rest' =>
      rw [joinDots_cons_cons]
      intro hmem
      rcases List.mem_append.mp hmem with h1 | h2
      · exact h s (by simp) h1
      · rcases List.mem_cons.mp h2 with h3 | h4
        · exact hc h3
        · exact ih (fun s' hs' => h s' (by simp [hs'])) h4

theorem breakAtFirst_not_mem {c : Char} {xs : List Char} (h : c ∉ xs) :
    breakAtFirst c xs = none := by
  induction xs with
  | nil => rfl
  | cons x rest ih =>
    have hx : ¬x = c := fun e => h (e ▸ List.mem_cons_self x rest)
    simp only [breakAtFirst, if_neg hx]
    rw [ih (fun hm => h (List.mem_cons_of_mem _ hm))]

theorem breakAtFirst_append_cons (c : Char) (xs ys : List Char) (h : c ∉ xs) :
    breakAtFirst c (xs ++ c :: ys) = some (xs, ys) := by
  induction xs with
  | nil => simp [breakAtFirst]
  | cons x rest ih =>
    have hx : ¬x = c := fun e => h (e ▸ List.mem_cons_self x rest)
    have ih' := ih (fun hm => h (List.mem_cons_of_mem _ hm))
    simp only [List.cons_append, breakAtFirst, if_neg hx, List.append_eq, ih']

theorem splitOnChar_not_mem {c : Char} {xs : List Char} (h : c ∉ xs) :
    splitOnChar c xs = [xs] := by
  induction xs with
  | nil => rfl
  | cons x rest ih =>
    have hx : ¬x = c := fun e => h (e ▸ List.mem_cons_self x rest)
    simp only [splitOnChar, if_neg hx]
    rw [ih (fun hm => h (List.mem_cons_of_mem _ hm))]

theorem splitOnChar_append_cons (c : Char) (xs ys : List Char) (h : c ∉ xs) :
    splitOnChar c (xs ++ c :: ys) = xs :: splitOnChar c ys := by
  induction xs with
  | nil => simp [splitOnChar]
  | cons x rest ih =>
    have hx : ¬x = c := fun e => h (e ▸ List.mem_cons_self x rest)
    have ih' := ih (fun hm => h (List.mem_cons_of_mem _ hm))
    simp only [List.cons_append, splitOnChar, if_neg hx, List.append_eq, ih']

theorem splitOnChar_joinDots (segs : List (List Char)) (hne : segs ≠ [])
    (h : ∀ s ∈ segs, '.' ∉ s) :
    splitOnChar '.' (joinDots segs) = segs := by
  induction segs with
  | nil => exact absurd rfl hne
  | cons s rest ih =>
    cases rest with
    | nil => exact splitOnChar_not_mem (h s (by simp))
    | cons t rest' =>
      rw [joinDots_cons_cons,
        splitOnChar_append_cons _ _ _ (h s (by simp)),
        ih (by simp) (fun s' hs' => h s' (by simp [hs']))]

theorem takeWhile_append_cons {p : Char → Bool} (xs : List Char) (y : Char)
    (ys : List Char) (hxs : ∀ x ∈ xs, p x = true) (hy : p y = false) :
    (xs ++ y :: ys).takeWhile p = xs := by
  induction xs with
  | nil => simp [List.takeWhile_cons, hy]
  | cons x rest ih =>
    simp [List.takeWhile_cons, hxs x (by simp),
      ih (fun x' hx' => hxs x' (by simp [hx']))]

/-- The schema's context pattern accepts every dotted identifier path
with an admissible optional fragment. -/
theorem refCtxMatch_mkCtxLiteral (segs : List (List Char))
    (frag : Option (List Char)) (hne : segs ≠ [])
    (hid : ∀ s ∈ segs, identOk s = true)
    (hfrag : ∀ f, frag = some f → fragOk f = true) :
    refCtxMatch (mkCtxLiteral segs frag) = some (joinDots segs, frag) := by
  have hhash : '#' ∉ joinDots segs :=
    joinDots_not_mem (by decide)
      (fun s hs => identOk_not_mem (hid s hs) (by decide) (by decide))
  have hdots : ∀ s ∈ segs, '.' ∉ s :=
    fun s hs => identOk_not_mem (hid s hs) (by decide) (by decide)
  have hall : (splitOnChar '.' (joinDots segs)).all identOk = true := by
    rw [splitOnChar_joinDots segs hne hdots]
    exact List.all_eq_true.mpr hid
  cases frag with
  | none =>
    simp only [mkCtxLiteral, refCtxMatch, List.append_nil]
    rw [breakAtFirst_not_mem hhash]
    simp [hall]
  | some f =>
    simp only [mkCtxLiteral, refCtxMatch]
    rw [breakAtFirst_append_cons '#' _ _ hhash]
    simp [hall, hfrag f rfl]

theorem max?_filter_none {p : Nat → Bool} (n : Nat)
    (h : ∀ k, k < n → p k = false) :
    ((List.range n).filter p).max? = none := by
  have hnil : (List.range n).filter p = [] :=
    List.filter_eq_nil_iff.mpr
      (fun k hk => by simp [h k (List.mem_range.mp hk)])
  rw [hnil]
  rfl

/-- The generator's context pattern rejects every path of three or more
identifier segments: the remainder after the first dot still contains a
dot, and the second segment contains no `#` before it. -/
theorem matchCtxGen_mkCtxLiteral_none (s1 s2 s3 : List Char)
    (rest' : List (List Char)) (frag : Option (List Char))
    (hid : ∀ s ∈ s1 :: s2 :: s3 :: rest', identOk s = true) :
    matchCtxGen (mkCtxLiteral (s1 :: s2 :: s3 :: rest') frag) = none := by
  have h1 := hid s1 (by simp)
  have h2 := hid s2 (by simp)
  have hdot1 : '.' ∉ s1 := identOk_not_mem h1 (by decide) (by decide)
  have hdot2 : '.' ∉ s2 := identOk_not_mem h2 (by decide) (by decide)
  have hhash2 : '#' ∉ s2 := identOk_not_mem h2 (by decide) (by decide)
  simp only [mkCtxLiteral, matchCtxGen]
  generalize (match frag with
    | none => ([] : List Char)
    | some f => '#' :: f) = F
  have hshape : joinDots (s1 :: s2 :: s3 :: rest') ++ F
      = s1 ++ '.' :: (s2 ++ '.' :: (joinDots (s3 :: rest') ++ F)) := by
    rw [joinDots_cons_cons, joinDots_cons_cons]
    simp [List.append_assoc]
  rw [hshape, breakAtFirst_append_cons '.' _ _ hdot1]
  have hm1 : s1.isEmpty = false := by
    cases s1 with
    | nil => exact absurd rfl (identOk_ne_nil h1)
    | cons a b => rfl
  set R := s2 ++ '.' :: (joinDots (s3 :: rest') ++ F) with hR
  have hRne : R.isEmpty = false := by
    rw [hR]
    cases s2 with
    | nil => rfl
    | cons a b => rfl
  have hmemR : '.' ∈ R := by
    rw [hR]
    exact List.mem_append.mpr (Or.inr (List.mem_cons_self _ _))
  have hRdot : R.contains '.' = true := List.elem_eq_true_of_mem hmemR
  have htw : (R.takeWhile (fun c => c ≠ '.')).length = s2.length := by
    rw [hR, takeWhile_append_cons s2 '.' _
      (fun x hx => by
        simp only [decide_eq_true_eq]
        exact fun e => hdot2 (e ▸ hx))
      (by simp)]
  have hlast : lastHashBeforeFirstDot R = none := by
    simp only [lastHashBeforeFirstDot]
    rw [htw]
    apply max?_filter_none
    intro k hk'
    simp only [decide_eq_false_iff_not]
    intro hconj
    have hget : R.get? k = s2.get? k := by
      rw [hR, List.get?_eq_getElem?, List.get?_eq_getElem?,
        List.getElem?_append, if_pos hk']
    have hne2 : R.get? k ≠ some '#' := by
      rw [hget]
      cases hg : s2.get? k with
      | none => simp
      | some x =>
        have hxmem : x ∈ s2 := List.get?_mem hg
        have hxne : x ≠ '#' := fun e => hhash2 (e ▸ hxmem)
        simp [hxne]
    exact hne2 hconj.2.1
  simp [hm1, hRne, hRdot, hlast, hmemR]

/-- C9: for every context reference literal whose dotted path has three
or more identifier segments, the schema validator's `RefCtx` check
accepts the string but the generator's reference-to-markup conversion
throws `bad reference` for it, because the generator's context pattern
only admits exactly two dot-separated segments. -/
theorem c9_multisegment_ctx (marked : String → String)
    (segs : List (List Char)) (frag : Option (List Char))
    (hlen : 3 ≤ segs.length)
    (hid : ∀ s ∈ segs, identOk s = true)
    (hfrag : ∀ f, frag = some f → fragOk f = true) :
    refCtxTest (mkCtxLiteral segs frag) = true ∧
    ref2html marked (String.mk (mkCtxLiteral segs frag))
      = .error ("bad reference: \"" ++ String.mk (mkCtxLiteral segs frag) ++ "\"") := by
  have hne : segs ≠ [] := by
    intro e
    rw [e] at hlen
    exact absurd hlen (by decide)
  constructor
  · unfold refCtxTest
    rw [refCtxMatch_mkCtxLiteral segs frag hne hid hfrag]
    rfl
  · rcases segs with _ | ⟨s1, _ | ⟨s2, _ | ⟨s3, rest'⟩⟩⟩
    · simp at hlen
    · simp at hlen
    · simp at hlen
    · have hctx := matchCtxGen_mkCtxLiteral_none s1 s2 s3 rest' frag hid
      have hasp : matchAspectGen (mkCtxLiteral (s1 :: s2 :: s3 :: rest') frag) = none := rfl
      have hurl : urlTestGen (mkCtxLiteral (s1 :: s2 :: s3 :: rest') frag) = false := rfl
      have hmd : mdMatchGen (mkCtxLiteral (s1 :: s2 :: s3 :: rest') frag) = none := rfl
      simp [ref2html, hctx, hasp, hurl, hmd]

theorem c9_multisegment_ctx_witness :
    refCtxTest (mkCtxLiteral [['A'], ['B'], ['C']] none) = true ∧
    ref2html id (String.mk (mkCtxLiteral [['A'], ['B'], ['C']] none))
      = .error "bad reference: \"ctx:A.B.C\"" :=
  c9_multisegment_ctx id [['A'], ['B'], ['C']] none (by decide)
    (by decide) (fun f hf => nomatch hf)

/-! ### Round-trip lemmas: validating an encoded document restores it -/

theorem jsGet_optJ_append (k : String) (o : Option String)
    (fs : List (String × Json)) (k' : String) :
    jsGet (optJ k o ++ fs) k' =
      if k = k' ∧ o.isSome then o.map Json.str else jsGet fs k' := by
  cases o with
  | none => simp [optJ]
  | some s =>
    by_cases hk : k = k'
    · simp [optJ, jsGet, hk]
    · simp [optJ, jsGet, hk]

theorem jsGet_optLevelJ_append (k : String) (o : Option AssessmentLevel)
    (fs : List (String × Json)) (k' : String) :
    jsGet (optLevelJ k o ++ fs) k' =
      if k = k' ∧ o.isSome then o.map encodeAssessmentLevel else jsGet fs k' := by
  cases o with
  | none => simp [optLevelJ]
  | some l =>
    by_cases hk : k = k'
    · simp [optLevelJ, jsGet, hk]
    · simp [optLevelJ, jsGet, hk]

theorem jsGet_optLevelJ (k : String) (o : Option AssessmentLevel) (k' : String) :
    jsGet (optLevelJ k o) k' =
      if k = k' ∧ o.isSome then o.map encodeAssessmentLevel else none := by
  have := jsGet_optLevelJ_append k o [] k'
  simpa [jsGet] using this

theorem optJ_keys (keys : List String) (k : String) (o : Option String)
    (h : keys.contains k = true) :
    (optJ k o).all (fun kv => keys.contains kv.1) = true := by
  cases o with
  | none => simp [optJ]
  | some s =>
    simp [optJ]
    exact List.mem_of_elem_eq_true h

theorem optLevelJ_keys (keys : List String) (k : String)
    (o : Option AssessmentLevel) (h : keys.contains k = true) :
    (optLevelJ k o).all (fun kv => keys.contains kv.1) = true := by
  cases o with
  | none => simp [optLevelJ]
  | some l =>
    simp [optLevelJ]
    exact List.mem_of_elem_eq_true h

theorem decodeEditing_encode (e : Editing) (h : wfEditing e = true) :
    decodeEditing (encodeEditing e) = some e := by
  simp only [wfEditing, Bool.decide_and, Bool.and_eq_true, decide_eq_true_eq] at h
  simp [decodeEditing, encodeEditing, jsGet, asString, h.1, h.2]

theorem decodeValidity_encode (v : Validity) (h : wfValidity v = true) :
    decodeValidity (encodeValidity v) = some v := by
  simp only [wfValidity, Bool.decide_and, Bool.decide_or, Bool.and_eq_true,
    Bool.or_eq_true, decide_eq_true_eq] at h
  have hu : dateTestS v.Until = true ∨ v.Until = "..." := h.2
  simp [decodeValidity, encodeValidity, jsGet, asString, h.1, hu]

theorem decodeLogo_encode (l : Logo) : decodeLogo (encodeLogo l) = some l := by
  simp [decodeLogo, encodeLogo, jsGet, asString]

theorem decodeAuthor_encode (a : Author) (h : wfAuthor a = true) :
    decodeAuthor (encodeAuthor a) = some a := by
  simp only [wfAuthor, Bool.decide_and, Bool.and_eq_true, decide_eq_true_eq] at h
  simp [decodeAuthor, encodeAuthor, jsGet, asString, h.1, h.2]

theorem decodeContextInner_encode (inner : List (String × String)) :
    decodeContextInner
      (Json.obj (inner.map (fun kv2 => (kv2.1, Json.str kv2.2)))) = some inner := by
  induction inner with
  | nil => rfl
  | cons kv rest ih =>
    simp only [decodeContextInner, List.map_cons, mapMOpt, asString] at ih ⊢
    simp_all

theorem decodeContext_encode (c : ContextMap) :
    decodeContext (encodeContext c) = some c := by
  induction c with
  | nil => rfl
  | cons kv rest ih =>
    simp only [decodeContext, encodeContext, List.map_cons, mapMOpt] at ih ⊢
    simp_all [decodeContextInner_encode]

theorem jsGet_optJ (k : String) (o : Option String) (k' : String) :
    jsGet (optJ k o) k' =
      if k = k' ∧ o.isSome then o.map Json.str else none := by
  have := jsGet_optJ_append k o [] k'
  simpa [jsGet] using this

theorem optRefField_of_jsGet (fs : List (String × Json)) (k : String)
    (test : String → Bool) (o : Option String)
    (h : jsGet fs k = o.map Json.str) (hwf : o.all test = true) :
    optRefField fs k test = some o := by
  cases o with
  | none => simp [optRefField, h]
  | some s =>
    simp only [Option.all] at hwf
    simp [optRefField, h, asString, hwf]

theorem decodeAssessStatement_encode (st : AssessStatement)
    (h : wfStatement st = true) :
    decodeAssessStatement (encodeAssessStatement st) = some st := by
  rcases st with ⟨mu, sh, ma, wo⟩
  simp only [wfStatement, Bool.decide_and, Bool.and_eq_true, decide_eq_true_eq] at h
  obtain ⟨h1, h2, h3, h4⟩ := h
  have g1 : jsGet (optJ "MUST" mu ++ optJ "SHOULD" sh ++ optJ "MAY" ma ++
      optJ "WONT" wo) "MUST" = mu.map Json.str := by
    cases mu <;> simp [List.append_assoc, jsGet_optJ_append, jsGet_optJ]
  have g2 : jsGet (optJ "MUST" mu ++ optJ "SHOULD" sh ++ optJ "MAY" ma ++
      optJ "WONT" wo) "SHOULD" = sh.map Json.str := by
    cases sh <;> simp [List.append_assoc, jsGet_optJ_append, jsGet_optJ]
  have g3 : jsGet (optJ "MUST" mu ++ optJ "SHOULD" sh ++ optJ "MAY" ma ++
      optJ "WONT" wo) "MAY" = ma.map Json.str := by
    cases ma <;> simp [List.append_assoc, jsGet_optJ_append, jsGet_optJ]
  have g4 : jsGet (optJ "MUST" mu ++ optJ "SHOULD" sh ++ optJ "MAY" ma ++
      optJ "WONT" wo) "WONT" = wo.map Json.str := by
    cases wo <;> simp [List.append_assoc, jsGet_optJ_append, jsGet_optJ]
  have k1 := optJ_keys assessStatementKeys "MUST" mu (by decide)
  have k2 := optJ_keys assessStatementKeys "SHOULD" sh (by decide)
  have k3 := optJ_keys assessStatementKeys "MAY" ma (by decide)
  have k4 := optJ_keys assessStatementKeys "WONT" wo (by decide)
  have f1 := optRefField_of_jsGet _ _ refCtxTestS mu g1 h1
  have f2 := optRefField_of_jsGet _ _ refCtxTestS sh g2 h2
  have f3 := optRefField_of_jsGet _ _ refCtxTestS ma g3 h3
  have f4 := optRefField_of_jsGet _ _ refCtxTestS wo g4 h4
  have hall : ((optJ "MUST" mu ++ optJ "SHOULD" sh ++ optJ "MAY" ma ++
      optJ "WONT" wo).all (fun kv => assessStatementKeys.contains kv.1)) = true := by
    rw [List.all_append, List.all_append, List.all_append, k1, k2, k3, k4]
    rfl
  simp only [decodeAssessStatement, encodeAssessStatement]
  rw [hall, if_pos rfl, f1, f2, f3, f4]
  rfl

theorem decodeStatements_encode (sts : List AssessStatement)
    (h : sts.all wfStatement = true) :
    mapMOpt decodeAssessStatement (sts.map encodeAssessStatement) = some sts := by
  induction sts with
  | nil => rfl
  | cons st rest ih =>
    simp only [List.all_cons, Bool.and_eq_true] at h
    simp only [List.map_cons, mapMOpt]
    rw [decodeAssessStatement_encode st h.1, ih h.2]
    rfl

theorem decodeAssessmentLevel_encode (l : AssessmentLevel)
    (h : wfLevel l = true) :
    decodeAssessmentLevel (encodeAssessmentLevel l) = some l := by
  rcases l with ⟨id, wh, why, ass, so, op⟩
  simp only [wfLevel] at h
  cases why <;> cases ass <;> cases so <;> cases op <;>
    simp_all [decodeAssessmentLevel, encodeAssessmentLevel, optJ, jsGet,
      asString, optStrField, Option.all, decodeStatements_encode] <;>
    decide

theorem decodeOptLevel_of_jsGet (fs : List (String × Json)) (k : String)
    (o : Option AssessmentLevel)
    (h : jsGet fs k = o.map encodeAssessmentLevel) (hwf : o.all wfLevel = true) :
    decodeOptLevel fs k = some o := by
  cases o with
  | none => simp [decodeOptLevel, h]
  | some lv =>
    simp only [Option.all] at hwf
    simp [decodeOptLevel, h, decodeAssessmentLevel_encode lv hwf]

theorem decodeAssessment_encode (a : Assessment) (h : wfAssessment a = true) :
    decodeAssessment (encodeAssessment a) = some a := by
  rcases a with ⟨a9, a8, a7, a6, a5, a4, a3, a2, a1, a0⟩
  simp only [wfAssessment, Bool.decide_and, Bool.and_eq_true,
    decide_eq_true_eq] at h
  obtain ⟨h9, h8, h7, h6, h5, h4, h3, h2, h1, h0⟩ := h
  have g9 : jsGet (assessmentFields ⟨a9, a8, a7, a6, a5, a4, a3, a2, a1, a0⟩)
      "Level-9" = a9.map encodeAssessmentLevel := by
    cases a9 <;> simp [assessmentFields, List.append_assoc,
      jsGet_optLevelJ_append, jsGet_optLevelJ]
  have g8 : jsGet (assessmentFields ⟨a9, a8, a7, a6, a5, a4, a3, a2, a1, a0⟩)
      "Level-8" = a8.map encodeAssessmentLevel := by
    cases a8 <;> simp [assessmentFields, List.append_assoc,
      jsGet_optLevelJ_append, jsGet_optLevelJ]
  have g7 : jsGet (assessmentFields ⟨a9, a8, a7, a6, a5, a4, a3, a2, a1, a0⟩)
      "Level-7" = a7.map encodeAssessmentLevel := by
    cases a7 <;> simp [assessmentFields, List.append_assoc,
      jsGet_optLevelJ_append, jsGet_optLevelJ]
  have g6 : jsGet (assessmentFields ⟨a9, a8, a7, a6, a5, a4, a3, a2, a1, a0⟩)
      "Level-6" = a6.map encodeAssessmentLevel := by
    cases a6 <;> simp [assessmentFields, List.append_assoc,
      jsGet_optLevelJ_append, jsGet_optLevelJ]
  have g5 : jsGet (assessmentFields ⟨a9, a8, a7, a6, a5, a4, a3, a2, a1, a0⟩)
      "Level-5" = a5.map encodeAssessmentLevel := by
    cases a5 <;> simp [assessmentFields, List.append_assoc,
      jsGet_optLevelJ_append, jsGet_optLevelJ]
  have g4 : jsGet (assessmentFields ⟨a9, a8, a7, a6, a5, a4, a3, a2, a1, a0⟩)
      "Level-4" = a4.map encodeAssessmentLevel := by
    cases a4 <;> simp [assessmentFields, List.append_assoc,
      jsGet_optLevelJ_append, jsGet_optLevelJ]
  have g3 : jsGet (assessmentFields ⟨a9, a8, a7, a6, a5, a4, a3, a2, a1, a0⟩)
      "Level-3" = a3.map encodeAssessmentLevel := by
    cases a3 <;> simp [assessmentFields, List.append_assoc,
      jsGet_optLevelJ_append, jsGet_optLevelJ]
  have g2 : jsGet (assessmentFields ⟨a9, a8, a7, a6, a5, a4, a3, a2, a1, a0⟩)
      "Level-2" = a2.map encodeAssessmentLevel := by
    cases a2 <;> simp [assessmentFields, List.append_assoc,
      jsGet_optLevelJ_append, jsGet_optLevelJ]
  have g1 : jsGet (assessmentFields ⟨a9, a8, a7, a6, a5, a4, a3, a2, a1, a0⟩)
      "Level-1" = a1.map encodeAssessmentLevel := by
    cases a1 <;> simp [assessmentFields, List.append_assoc,
      jsGet_optLevelJ_append, jsGet_optLevelJ]
  have g0 : jsGet (assessmentFields ⟨a9, a8, a7, a6, a5, a4, a3, a2, a1, a0⟩)
      "Level-0" = a0.map encodeAssessmentLevel := by
    cases a0 <;> simp [assessmentFields, List.append_assoc,
      jsGet_optLevelJ_append, jsGet_optLevelJ]
  have d9 := decodeOptLevel_of_jsGet _ _ _ g9 h9
  have d8 := decodeOptLevel_of_jsGet _ _ _ g8 h8
  have d7 := decodeOptLevel_of_jsGet _ _ _ g7 h7
  have d6 := decodeOptLevel_of_jsGet _ _ _ g6 h6
  have d5 := decodeOptLevel_of_jsGet _ _ _ g5 h5
  have d4 := decodeOptLevel_of_jsGet _ _ _ g4 h4
  have d3 := decodeOptLevel_of_jsGet _ _ _ g3 h3
  have d2 := decodeOptLevel_of_jsGet _ _ _ g2 h2
  have d1 := decodeOptLevel_of_jsGet _ _ _ g1 h1
  have d0 := decodeOptLevel_of_jsGet _ _ _ g0 h0
  have gk : (assessmentFields ⟨a9, a8, a7, a6, a5, a4, a3, a2, a1, a0⟩).all
      (fun kv => levelKeysDesc.contains kv.1) = true := by
    simp only [assessmentFields]
    rw [List.all_append, List.all_append, List.all_append, List.all_append,
      List.all_append, List.all_append, List.all_append, List.all_append,
      List.all_append,
      optLevelJ_keys levelKeysDesc "Level-9" a9 (by decide),
      optLevelJ_keys levelKeysDesc "Level-8" a8 (by decide),
      optLevelJ_keys levelKeysDesc "Level-7" a7 (by decide),
      optLevelJ_keys levelKeysDesc "Level-6" a6 (by decide),
      optLevelJ_keys levelKeysDesc "Level-5" a5 (by decide),
      optLevelJ_keys levelKeysDesc "Level-4" a4 (by decide),
      optLevelJ_keys levelKeysDesc "Level-3" a3 (by decide),
      optLevelJ_keys levelKeysDesc "Level-2" a2 (by decide),
      optLevelJ_keys levelKeysDesc "Level-1" a1 (by decide),
      optLevelJ_keys levelKeysDesc "Level-0" a0 (by decide)]
    rfl
  simp only [decodeAssessment, encodeAssessment]
  rw [gk, if_pos rfl, d9, d8, d7, d6, d5, d4, d3, d2, d1, d0]
  rfl

theorem decodeRelation_encode (r : Relation) (h : wfRelation r = true) :
    decodeRelation (encodeRelation r) = some r := by
  rcases r with ⟨sc, su, de, cx, re, sa⟩
  simp only [wfRelation, Bool.decide_and, Bool.and_eq_true,
    decide_eq_true_eq] at h
  obtain ⟨h1, h2, h3, h4, h5, h6⟩ := h
  have g1 : jsGet (optJ "Scope" sc ++ optJ "Support" su ++ optJ "Demand" de ++
      optJ "Context" cx ++ optJ "Responsible" re ++ optJ "See-Also" sa)
      "Scope" = sc.map Json.str := by
    cases sc <;> simp [List.append_assoc, jsGet_optJ_append, jsGet_optJ]
  have g2 : jsGet (optJ "Scope" sc ++ optJ "Support" su ++ optJ "Demand" de ++
      optJ "Context" cx ++ optJ "Responsible" re ++ optJ "See-Also" sa)
      "Support" = su.map Json.str := by
    cases su <;> simp [List.append_assoc, jsGet_optJ_append, jsGet_optJ]
  have g3 : jsGet (optJ "Scope" sc ++ optJ "Support" su ++ optJ "Demand" de ++
      optJ "Context" cx ++ optJ "Responsible" re ++ optJ "See-Also" sa)
      "Demand" = de.map Json.str := by
    cases de <;> simp [List.append_assoc, jsGet_optJ_append, jsGet_optJ]
  have g4 : jsGet (optJ "Scope" sc ++ optJ "Support" su ++ optJ "Demand" de ++
      optJ "Context" cx ++ optJ "Responsible" re ++ optJ "See-Also" sa)
      "Context" = cx.map Json.str := by
    cases cx <;> simp [List.append_assoc, jsGet_optJ_append, jsGet_optJ]
  have g5 : jsGet (optJ "Scope" sc ++ optJ "Support" su ++ optJ "Demand" de ++
      optJ "Context" cx ++ optJ "Responsible" re ++ optJ "See-Also" sa)
      "Responsible" = re.map Json.str := by
    cases re <;> simp [List.append_assoc, jsGet_optJ_append, jsGet_optJ]
  have g6 : jsGet (optJ "Scope" sc ++ optJ "Support" su ++ optJ "Demand" de ++
      optJ "Context" cx ++ optJ "Responsible" re ++ optJ "See-Also" sa)
      "See-Also" = sa.map Json.str := by
    cases sa <;> simp [List.append_assoc, jsGet_optJ_append, jsGet_optJ]
  have f1 := optRefField_of_jsGet _ _ refAspectTestS sc g1 h1
  have f2 := optRefField_of_jsGet _ _ refCtxTestS su g2 h2
  have f3 := optRefField_of_jsGet _ _ refCtxTestS de g3 h3
  have f4 := optRefField_of_jsGet _ _ refCtxTestS cx g4 h4
  have f5 := optRefField_of_jsGet _ _ refCtxTestS re g5 h5
  have f6 := optRefField_of_jsGet _ _ seeAlsoTest sa g6 h6
  have gk : (optJ "Scope" sc ++ optJ "Support" su ++ optJ "Demand" de ++
      optJ "Context" cx ++ optJ "Responsible" re ++ optJ "See-Also" sa).all
      (fun kv => relationKeys.contains kv.1) = true := by
    rw [List.all_append, List.all_append, List.all_append, List.all_append,
      List.all_append,
      optJ_keys relationKeys "Scope" sc (by decide),
      optJ_keys relationKeys "Support" su (by decide),
      optJ_keys relationKeys "Demand" de (by decide),
      optJ_keys relationKeys "Context" cx (by decide),
      optJ_keys relationKeys "Responsible" re (by decide),
      optJ_keys relationKeys "See-Also" sa (by decide)]
    rfl
  simp only [decodeRelation, encodeRelation]
  rw [gk, if_pos rfl, f1, f2, f3, f4, f5, f6]
  rfl

theorem decodeRelations_encode (rs : List Relation)
    (h : rs.all wfRelation = true) :
    mapMOpt decodeRelation (rs.map encodeRelation) = some rs := by
  induction rs with
  | nil => rfl
  | cons r rest ih =>
    simp only [List.all_cons, Bool.and_eq_true] at h
    simp only [List.map_cons, mapMOpt]
    rw [decodeRelation_encode r h.1, ih h.2]
    rfl

theorem mapM_asString_map (l : List String) :
    mapMOpt asString (l.map Json.str) = some l := by
  induction l with
  | nil => rfl
  | cons s rest ih =>
    simp only [List.map_cons, mapMOpt, asString]
    rw [ih]
    rfl

theorem decodeIndex_encode (x : IndexType) (h : wfIndex x = true) :
    IndexSchema (encodeIndex x) = some x := by
  rcases x with ⟨ed, va, id, nm, lg, ver, au, de, cx⟩
  simp only [wfIndex, Bool.decide_and, Bool.and_eq_true, decide_eq_true_eq] at h
  obtain ⟨h1, h2, h3⟩ := h
  cases lg with
  | none =>
    simp [IndexSchema, encodeIndex, jsGet, asString, indexKeys,
      decodeEditing_encode _ h1, decodeValidity_encode _ h2,
      decodeAuthor_encode _ h3, decodeContext_encode]
  | some lgv =>
    simp [IndexSchema, encodeIndex, jsGet, asString, indexKeys,
      decodeEditing_encode _ h1, decodeValidity_encode _ h2,
      decodeLogo_encode, decodeAuthor_encode _ h3, decodeContext_encode]

theorem decodeAspect_encode (x : AspectType) (h : wfAspect x = true) :
    AspectSchema (encodeAspect x) = some x := by
  rcases x with ⟨ed, va, id, nm, ic, ob, ass, rel⟩
  simp only [wfAspect, Bool.decide_and, Bool.and_eq_true, decide_eq_true_eq] at h
  obtain ⟨hEd, hVa, hAss, hRel⟩ := h
  cases ed <;> cases va <;> cases ic <;> cases rel <;>
    simp_all [AspectSchema, encodeAspect, jsGet, asString, aspectKeys,
      Option.all, decodeEditing_encode, decodeValidity_encode,
      decodeAssessment_encode, decodeRelations_encode, mapM_asString_map]

theorem decodeAspects_encode (xs : List AspectType)
    (h : xs.all wfAspect = true) :
    mapMOpt AspectSchema (xs.map encodeAspect) = some xs := by
  induction xs with
  | nil => rfl
  | cons x rest ih =>
    simp only [List.all_cons, Bool.and_eq_true] at h
    simp only [List.map_cons, mapMOpt]
    rw [decodeAspect_encode x h.1, ih h.2]
    rfl

theorem mapMOpt_length {α β : Type} (f : α → Option β) :
    ∀ (l : List α) (ys : List β), mapMOpt f l = some ys → ys.length = l.length := by
  intro l
  induction l with
  | nil =>
    intro ys h
    simp only [mapMOpt] at h
    cases h
    rfl
  | cons x rest ih =>
    intro ys h
    simp only [mapMOpt] at h
    cases hx : f x with
    | none => rw [hx] at h; simp at h
    | some y =>
      rw [hx] at h
      cases hrest : mapMOpt f rest with
      | none => rw [hrest] at h; simp at h
      | some zs =>
        rw [hrest] at h
        simp only [Option.some_bind, Option.map_some'] at h
        cases h
        simp [ih zs hrest]

/-! ### Behaviour of the serializer's aspect loop -/

theorem importAspectsLoop_ok :
    ∀ (js : List Json) (repo : RulebookRepository) (xs : List AspectType),
      mapMOpt AspectSchema js = some xs →
      importAspectsLoop repo js
        = ({ repo with aspects := repo.aspects ++ xs.map (fun a => { obj := a }) },
           none) := by
  intro js
  induction js with
  | nil =>
    intro repo xs h
    simp only [mapMOpt] at h
    cases h
    simp [importAspectsLoop]
  | cons j rest ih =>
    intro repo xs h
    simp only [mapMOpt] at h
    cases hj : AspectSchema j with
    | none => rw [hj] at h; simp at h
    | some a =>
      rw [hj] at h
      cases hrest : mapMOpt AspectSchema rest with
      | none => rw [hrest] at h; simp at h
      | some ys =>
        rw [hrest] at h
        simp only [Option.some_bind, Option.map_some'] at h
        cases h
        simp only [importAspectsLoop, hj]
        rw [ih (repo.addAspect { obj := a }) ys hrest]
        simp [RulebookRepository.addAspect, List.append_assoc]

theorem importAspectsLoop_fail :
    ∀ (pre : List Json) (repo : RulebookRepository) (xs : List AspectType)
      (j : Json) (post : List Json),
      mapMOpt AspectSchema pre = some xs → AspectSchema j = none →
      importAspectsLoop repo (pre ++ j :: post)
        = ({ repo with aspects := repo.aspects ++ xs.map (fun a => { obj := a }) },
           some "failed to import aspect") := by
  intro pre
  induction pre with
  | nil =>
    intro repo xs j post hpre hbad
    simp only [mapMOpt] at hpre
    cases hpre
    simp [importAspectsLoop, hbad]
  | cons p rest ih =>
    intro repo xs j post hpre hbad
    simp only [mapMOpt] at hpre
    cases hp : AspectSchema p with
    | none => rw [hp] at hpre; simp at hpre
    | some a =>
      rw [hp] at hpre
      cases hrest : mapMOpt AspectSchema rest with
      | none => rw [hrest] at hpre; simp at hpre
      | some ys =>
        rw [hrest] at hpre
        simp only [Option.some_bind, Option.map_some'] at hpre
        cases hpre
        simp only [List.cons_append, List.append_eq, importAspectsLoop, hp]
        rw [ih (repo.addAspect { obj := a }) ys j post hrest hbad]
        simp [RulebookRepository.addAspect, List.append_assoc]

/-- C3 (amended): on a repository whose Index is set (holding, as every
reachable repository state does, schema-valid documents),
`import(export(repository))` succeeds and restores an Index and an
Aspect list whose documents are structurally equal to the originals, in
the same order (the artifact wrappers are rebuilt without
file/source/tree provenance, as `import` always does). -/
theorem c3_roundtrip_with_index (repo : RulebookRepository)
    (ia : RulebookArtifact IndexType) (hix : repo.index = some ia)
    (hwf : wfIndex ia.obj = true)
    (hwfa : repo.aspects.all (fun a => wfAspect a.obj) = true) :
    serializerImport repo (serializerExport repo)
      = ({ index := some { obj := ia.obj }
           aspects := repo.aspects.map (fun a => { obj := a.obj }) }, none) := by
  obtain ⟨ifs, hifs⟩ : ∃ ifs, encodeIndex ia.obj = Json.obj ifs := ⟨_, rfl⟩
  have hmapm : mapMOpt AspectSchema (repo.aspects.map (fun a => encodeAspect a.obj))
      = some (repo.aspects.map (fun a => a.obj)) := by
    have hmm : repo.aspects.map (fun a => encodeAspect a.obj)
        = (repo.aspects.map (fun a => a.obj)).map encodeAspect := by
      rw [List.map_map]
      rfl
    rw [hmm]
    apply decodeAspects_encode
    simpa [List.all_map, Function.comp] using hwfa
  have hIndexDec : IndexSchema (Json.obj ifs) = some ia.obj := by
    rw [← hifs]
    exact decodeIndex_encode ia.obj hwf
  simp only [serializerExport, hix, hifs]
  simp [serializerImport, importChecked, jsGet, hIndexDec, hmapm,
    importAspectsLoop_ok, RulebookRepository.clearAspects]

theorem c3_roundtrip_with_index_witness :
    serializerImport repoC1 (serializerExport repoC1)
      = ({ index := some { obj := indexC1 }, aspects := [{ obj := aspectC1 }] },
         none) :=
  c3_roundtrip_with_index repoC1 { obj := indexC1 } rfl (by decide) (by decide)

/-- C10: `import` is not atomic.  On a JSON envelope whose index
validates but whose aspects array has its first schema-invalid element
at position `k`, the call throws, yet the repository has already been
mutated: its Index is the imported one, the previous Aspect list is
gone, and exactly the `k` valid aspects before the failing element are
stored. -/
theorem c10_import_not_atomic (repo : RulebookRepository)
    (fs : List (String × Json)) (ifs : List (String × Json)) (ixv : IndexType)
    (pre : List Json) (j : Json) (post : List Json) (xs : List AspectType)
    (k : Nat)
    (hix : jsGet fs "index" = some (.obj ifs))
    (hasp : jsGet fs "aspects" = some (.arr (pre ++ j :: post)))
    (hIndex : IndexSchema (.obj ifs) = some ixv)
    (hpre : mapMOpt AspectSchema pre = some xs)
    (hbad : AspectSchema j = none)
    (hk : pre.length = k) :
    serializerImport repo (.obj fs)
      = ({ index := some { obj := ixv }, aspects := xs.map (fun a => { obj := a }) },
         some "failed to import aspect") ∧ xs.length = k := by
  constructor
  · simp only [serializerImport, hix]
    simp only [importChecked, hasp, hIndex]
    rw [importAspectsLoop_fail pre _ xs j post hpre hbad]
    simp [RulebookRepository.clearAspects]
  · rw [← hk]
    exact mapMOpt_length _ pre xs hpre

theorem c10_import_not_atomic_witness :
    serializerImport repoEmpty
      (Json.obj [("index", encodeIndex indexC1),
                 ("aspects", Json.arr [encodeAspect aspectC1, Json.str "bad"])])
      = ({ index := some { obj := indexC1 }, aspects := [{ obj := aspectC1 }] },
         some "failed to import aspect") :=
  (c10_import_not_atomic repoEmpty
    [("index", encodeIndex indexC1),
     ("aspects", Json.arr [encodeAspect aspectC1, Json.str "bad"])]
    _ indexC1 [encodeAspect aspectC1]
    (Json.str "bad") [] [aspectC1] 1 rfl rfl rfl rfl rfl rfl).1

end Rulebook
